import Mathlib

/-!
Verification of the terminal-styler core: data model, document editing
operations, ANSI import/export, the SGR state machine and the structured
(RON) serializer, shallowly embedded from the Rust sources
(`src/app.rs`, `src/colors.rs`, `src/export.rs`, `src/import.rs`).

Machine integers (`u8`, `u32`) are embedded as `Nat` with explicit
`% 256` where the source performs an `as u8` cast.  Strings are embedded
through their character lists; Rust byte indices coincide with character
indices on every boundary the code inspects (all delimiters are ASCII).
-/

/-- The `ratatui` `Color` enumeration as used by the program: 17 named
variants plus 8-bit indexed and 24-bit RGB colors (19 variants total).
Components are `Nat`s that the program only ever builds below 256. -/
inductive Color : Type
  | Reset
  | Black
  | Red
  | Green
  | Yellow
  | Blue
  | Magenta
  | Cyan
  | White
  | DarkGray
  | LightRed
  | LightGreen
  | LightYellow
  | LightBlue
  | LightMagenta
  | LightCyan
  | Gray
  | Rgb (r g b : Nat)
  | Indexed (i : Nat)
  deriving DecidableEq, Repr

/-- `CharStyle` from `src/app.rs`: colors, four boolean decorations and a
dim ordinal 0-3 (`dim_level : u8`). -/
structure CharStyle : Type where
  fg : Color
  bg : Color
  bold : Bool
  italic : Bool
  underline : Bool
  strikethrough : Bool
  dim_level : Nat
  deriving DecidableEq, Repr

/-- `CharStyle::default()` from `src/app.rs`. -/
def CharStyle.default : CharStyle :=
  { fg := Color.Reset
    bg := Color.Reset
    bold := false
    italic := false
    underline := false
    strikethrough := false
    dim_level := 0 }

/-- `StyledChar` from `src/app.rs`: one character plus a style snapshot. -/
structure StyledChar : Type where
  ch : Char
  style : CharStyle
  deriving DecidableEq, Repr

/-- `StyledChar::with_style` from `src/app.rs`. -/
def StyledChar.with_style (ch : Char) (style : CharStyle) : StyledChar :=
  { ch := ch, style := style }

/-- `SerializableColor` from `src/import.rs` (the RON color tags). -/
inductive SerializableColor : Type
  | Reset
  | Black
  | Red
  | Green
  | Yellow
  | Blue
  | Magenta
  | Cyan
  | White
  | DarkGray
  | LightRed
  | LightGreen
  | LightYellow
  | LightBlue
  | LightMagenta
  | LightCyan
  | Gray
  | Rgb (r g b : Nat)
  | Indexed (i : Nat)
  deriving DecidableEq, Repr

/-- `SerializableStyle` from `src/import.rs`. -/
structure SerializableStyle : Type where
  fg : SerializableColor
  bg : SerializableColor
  bold : Bool
  italic : Bool
  underline : Bool
  strikethrough : Bool
  dim_level : Nat
  deriving DecidableEq, Repr

/-- `SerializableChar` from `src/import.rs`. -/
structure SerializableChar : Type where
  ch : Char
  style : SerializableStyle
  deriving DecidableEq, Repr

/-- `StyledDocument` from `src/import.rs`: the versioned RON container. -/
structure StyledDocument : Type where
  version : Nat
  chars : List SerializableChar
  deriving DecidableEq, Repr

/-- `impl From<Color> for SerializableColor` (`src/import.rs`). -/
def serializableColorOfColor : Color → SerializableColor
  | Color.Reset => SerializableColor.Reset
  | Color.Black => SerializableColor.Black
  | Color.Red => SerializableColor.Red
  | Color.Green => SerializableColor.Green
  | Color.Yellow => SerializableColor.Yellow
  | Color.Blue => SerializableColor.Blue
  | Color.Magenta => SerializableColor.Magenta
  | Color.Cyan => SerializableColor.Cyan
  | Color.White => SerializableColor.White
  | Color.DarkGray => SerializableColor.DarkGray
  | Color.LightRed => SerializableColor.LightRed
  | Color.LightGreen => SerializableColor.LightGreen
  | Color.LightYellow => SerializableColor.LightYellow
  | Color.LightBlue => SerializableColor.LightBlue
  | Color.LightMagenta => SerializableColor.LightMagenta
  | Color.LightCyan => SerializableColor.LightCyan
  | Color.Gray => SerializableColor.Gray
  | Color.Rgb r g b => SerializableColor.Rgb r g b
  | Color.Indexed i => SerializableColor.Indexed i

/-- `impl From<SerializableColor> for Color` (`src/import.rs`). -/
def colorOfSerializableColor : SerializableColor → Color
  | SerializableColor.Reset => Color.Reset
  | SerializableColor.Black => Color.Black
  | SerializableColor.Red => Color.Red
  | SerializableColor.Green => Color.Green
  | SerializableColor.Yellow => Color.Yellow
  | SerializableColor.Blue => Color.Blue
  | SerializableColor.Magenta => Color.Magenta
  | SerializableColor.Cyan => Color.Cyan
  | SerializableColor.White => Color.White
  | SerializableColor.DarkGray => Color.DarkGray
  | SerializableColor.LightRed => Color.LightRed
  | SerializableColor.LightGreen => Color.LightGreen
  | SerializableColor.LightYellow => Color.LightYellow
  | SerializableColor.LightBlue => Color.LightBlue
  | SerializableColor.LightMagenta => Color.LightMagenta
  | SerializableColor.LightCyan => Color.LightCyan
  | SerializableColor.Gray => Color.Gray
  | SerializableColor.Rgb r g b => Color.Rgb r g b
  | SerializableColor.Indexed i => Color.Indexed i

/-- `impl From<&CharStyle> for SerializableStyle` (`src/import.rs`). -/
def serializableStyleOfStyle (s : CharStyle) : SerializableStyle :=
  { fg := serializableColorOfColor s.fg
    bg := serializableColorOfColor s.bg
    bold := s.bold
    italic := s.italic
    underline := s.underline
    strikethrough := s.strikethrough
    dim_level := s.dim_level }

/-- `impl From<SerializableStyle> for CharStyle` (`src/import.rs`). -/
def styleOfSerializableStyle (s : SerializableStyle) : CharStyle :=
  { fg := colorOfSerializableColor s.fg
    bg := colorOfSerializableColor s.bg
    bold := s.bold
    italic := s.italic
    underline := s.underline
    strikethrough := s.strikethrough
    dim_level := s.dim_level }

/-- `impl From<&StyledChar> for SerializableChar` (`src/import.rs`). -/
def serializableCharOfChar (c : StyledChar) : SerializableChar :=
  { ch := c.ch, style := serializableStyleOfStyle c.style }

/-- `impl From<SerializableChar> for StyledChar` (`src/import.rs`). -/
def charOfSerializableChar (c : SerializableChar) : StyledChar :=
  StyledChar.with_style c.ch (styleOfSerializableStyle c.style)

/-- `export_ron` from `src/import.rs`, at the level of the versioned
document value.  The textual RON rendering performed by the external
`ron` crate is a faithful encoder of this value and is not part of this
repository, so the round trip is stated on the `StyledDocument` value
that the source hands to `ron::ser::to_string_pretty`. -/
def export_ron (text : List StyledChar) : StyledDocument :=
  { version := 1, chars := text.map serializableCharOfChar }

/-- `import_ron` from `src/import.rs`, at the level of the decoded
`StyledDocument` value recovered by the external `ron` crate. -/
def import_ron (doc : StyledDocument) : List StyledChar :=
  doc.chars.map charOfSerializableChar

lemma colorOfSerializableColor_ofColor (c : Color) :
    colorOfSerializableColor (serializableColorOfColor c) = c := by
  cases c <;> rfl

lemma charOfSerializableChar_ofChar (c : StyledChar) :
    charOfSerializableChar (serializableCharOfChar c) = c := by
  cases c with
  | mk ch st =>
    cases st
    simp [charOfSerializableChar, serializableCharOfChar,
      styleOfSerializableStyle, serializableStyleOfStyle,
      StyledChar.with_style, colorOfSerializableColor_ofColor]

/-- C1: for every document (any of the 19 color variants and any dim
level in every field), decoding the structured export yields the
original sequence field for field. -/
theorem c1_ron_roundtrip (D : List StyledChar) :
    import_ron (export_ron D) = D := by
  unfold import_ron export_ron
  simp only [List.map_map]
  induction D with
  | nil => rfl
  | cons c cs ih =>
    simp only [List.map_cons, Function.comp_apply, charOfSerializableChar_ofChar, ih]

/-- `Mode` from `src/app.rs`. -/
inductive Mode : Type
  | Normal
  | Typing
  | Selecting
  deriving DecidableEq, Repr

/-- `Panel` from `src/app.rs`. -/
inductive Panel : Type
  | Editor
  | FgColor
  | BgColor
  | Formatting
  deriving DecidableEq, Repr

/-- `SelectionHighlightMode` from `src/app.rs`. -/
inductive SelectionHighlightMode : Type
  | Reversed
  | Underline
  deriving DecidableEq, Repr

/-- `COLOR_PALETTE` from `src/colors.rs` (color component only; display
names and key characters are irrelevant to the verified operations). -/
def COLOR_PALETTE : List Color :=
  [Color.Reset, Color.Black, Color.Red, Color.Green, Color.Yellow,
   Color.Blue, Color.Magenta, Color.Cyan, Color.White, Color.DarkGray,
   Color.LightRed, Color.LightGreen, Color.LightYellow, Color.LightBlue,
   Color.LightMagenta, Color.LightCyan, Color.Gray]

/-- Modelled from the spec: `color_index_from_color` is referenced by
`App::load_style_from_cursor` (`src/app.rs`) but its definition is not
among the provided sources; following the palette table in
`src/colors.rs` it maps a color to its palette position, defaulting to
index 0 (None/Reset) when the color is not in the palette. -/
def color_index_from_color (c : Color) : Nat :=
  (COLOR_PALETTE.indexOf c)

/-- `App` from `src/app.rs` (the full application state). -/
structure App : Type where
  text : List StyledChar
  cursor_pos : Nat
  selection : Option (Nat × Nat)
  selection_anchor : Option Nat
  current_fg : Color
  current_bg : Color
  current_bold : Bool
  current_italic : Bool
  current_underline : Bool
  current_strikethrough : Bool
  current_dim : Nat
  mode : Mode
  active_panel : Panel
  fg_color_index : Nat
  bg_color_index : Nat
  status_message : Option String
  should_quit : Bool
  selection_highlight_mode : SelectionHighlightMode
  deriving DecidableEq, Repr

/-- `App::default()` from `src/app.rs` (the initial empty document). -/
def App.init : App :=
  { text := []
    cursor_pos := 0
    selection := none
    selection_anchor := none
    current_fg := Color.Reset
    current_bg := Color.Reset
    current_bold := false
    current_italic := false
    current_underline := false
    current_strikethrough := false
    current_dim := 0
    mode := Mode.Normal
    active_panel := Panel.Editor
    fg_color_index := 0
    bg_color_index := 0
    status_message := none
    should_quit := false
    selection_highlight_mode := SelectionHighlightMode.Reversed }

/-- `App::clear_selection` from `src/app.rs`. -/
def App.clear_selection (a : App) : App :=
  { a with
    selection := none
    selection_anchor := none
    mode := if a.mode = Mode.Selecting then Mode.Normal else a.mode }

/-- `App::insert_char` from `src/app.rs`: builds a styled character from
the pending style, inserts it at the cursor (push when the cursor is at
or past the end), advances the cursor, clears the selection. -/
def App.insert_char (a : App) (ch : Char) : App :=
  let styled := StyledChar.with_style ch
    { fg := a.current_fg
      bg := a.current_bg
      bold := a.current_bold
      italic := a.current_italic
      underline := a.current_underline
      strikethrough := a.current_strikethrough
      dim_level := a.current_dim }
  let newText :=
    if a.cursor_pos ≥ a.text.length then a.text ++ [styled]
    else a.text.take a.cursor_pos ++ styled :: a.text.drop a.cursor_pos
  App.clear_selection { a with text := newText, cursor_pos := a.cursor_pos + 1 }

/-- `App::delete_char` from `src/app.rs` (delete before the cursor). -/
def App.delete_char (a : App) : App :=
  if a.cursor_pos > 0 ∧ a.text ≠ [] then
    App.clear_selection
      { a with
        cursor_pos := a.cursor_pos - 1
        text := a.text.eraseIdx (a.cursor_pos - 1) }
  else a

/-- `App::delete_char_forward` from `src/app.rs` (delete at the cursor). -/
def App.delete_char_forward (a : App) : App :=
  if a.cursor_pos < a.text.length then
    App.clear_selection { a with text := a.text.eraseIdx a.cursor_pos }
  else a

/-- `App::update_selection` from `src/app.rs`. -/
def App.update_selection (a : App) : App :=
  if a.mode = Mode.Selecting then
    match a.selection_anchor with
    | some anchor =>
        let lo := min anchor a.cursor_pos
        let hi := max anchor a.cursor_pos
        { a with selection := some (lo, hi) }
    | none => a
  else a

/-- `App::move_left` from `src/app.rs`. -/
def App.move_left (a : App) : App :=
  if a.cursor_pos > 0 then
    App.update_selection { a with cursor_pos := a.cursor_pos - 1 }
  else a

/-- `App::move_right` from `src/app.rs`. -/
def App.move_right (a : App) : App :=
  if a.cursor_pos < a.text.length then
    App.update_selection { a with cursor_pos := a.cursor_pos + 1 }
  else a

/-- `App::move_to_start` from `src/app.rs`. -/
def App.move_to_start (a : App) : App :=
  App.update_selection { a with cursor_pos := 0 }

/-- `App::move_to_end` from `src/app.rs`. -/
def App.move_to_end (a : App) : App :=
  App.update_selection { a with cursor_pos := a.text.length }

/-- `App::start_selection` from `src/app.rs`. -/
def App.start_selection (a : App) : App :=
  { a with
    mode := Mode.Selecting
    selection_anchor := some a.cursor_pos
    selection := some (a.cursor_pos, a.cursor_pos) }

/-- Overwrite the style of the element at index `i`; `none` when `i` is
out of bounds, which models the panic of the Rust indexed assignment
`self.text[i].style = …`. -/
def setStyleAt (text : List StyledChar) (i : Nat) (st : CharStyle) :
    Option (List StyledChar) :=
  if h : i < text.length then
    some (text.set i (StyledChar.with_style (text.get ⟨i, h⟩).ch st))
  else none

/-- Write the style at each listed index in turn, failing on the first
out-of-bounds index. -/
def applyIdxs (text : List StyledChar) (st : CharStyle) :
    List Nat → Option (List StyledChar)
  | [] => some text
  | i :: is =>
    match setStyleAt text i st with
    | some t => applyIdxs t st is
    | none => none

/-- The loop `for i in start..=stop` of `App::apply_style`; the Rust
inclusive range `start..=stop` visits `start, start+1, …, stop` and is
empty when `start > stop`. -/
def applyRange (text : List StyledChar) (st : CharStyle)
    (start stop : Nat) : Option (List StyledChar) :=
  applyIdxs text st (List.range' start (stop + 1 - start))

/-- `App::apply_style` from `src/app.rs`: writes the pending style over
the selection range `start..=min end (len-1)` (`saturating_sub`), or
over the single character at the cursor.  Returns `none` exactly when
the Rust code would panic on an out-of-bounds index. -/
def App.apply_style (a : App) : Option App :=
  let style : CharStyle :=
    { fg := a.current_fg
      bg := a.current_bg
      bold := a.current_bold
      italic := a.current_italic
      underline := a.current_underline
      strikethrough := a.current_strikethrough
      dim_level := a.current_dim }
  match a.selection with
  | some (start, stop) =>
      match applyRange a.text style start (min stop (a.text.length - 1)) with
      | some t => some { a with text := t }
      | none => none
  | none =>
      if h : a.cursor_pos < a.text.length then
        let t := a.text.set a.cursor_pos
          (StyledChar.with_style (a.text.get ⟨a.cursor_pos, h⟩).ch style)
        some { a with text := t }
      else some a

/-- `App::toggle_bold` from `src/app.rs`. -/
def App.toggle_bold (a : App) : Option App :=
  App.apply_style { a with current_bold := !a.current_bold }

/-- `App::toggle_italic` from `src/app.rs`. -/
def App.toggle_italic (a : App) : Option App :=
  App.apply_style { a with current_italic := !a.current_italic }

/-- `App::toggle_underline` from `src/app.rs`. -/
def App.toggle_underline (a : App) : Option App :=
  App.apply_style { a with current_underline := !a.current_underline }

/-- `App::toggle_strikethrough` from `src/app.rs`. -/
def App.toggle_strikethrough (a : App) : Option App :=
  App.apply_style { a with current_strikethrough := !a.current_strikethrough }

/-- `App::cycle_dim` from `src/app.rs`. -/
def App.cycle_dim (a : App) : Option App :=
  App.apply_style { a with current_dim := (a.current_dim + 1) % 4 }

/-- `App::load_style_from_cursor` from `src/app.rs`. -/
def App.load_style_from_cursor (a : App) : App :=
  if h : a.cursor_pos < a.text.length then
    let st := (a.text.get ⟨a.cursor_pos, h⟩).style
    { a with
      current_fg := st.fg
      current_bg := st.bg
      current_bold := st.bold
      current_italic := st.italic
      current_underline := st.underline
      current_strikethrough := st.strikethrough
      current_dim := st.dim_level
      fg_color_index := color_index_from_color st.fg
      bg_color_index := color_index_from_color st.bg }
  else a

/-- `App::reset_style` from `src/app.rs`. -/
def App.reset_style (a : App) : App :=
  { a with
    current_fg := Color.Reset
    current_bg := Color.Reset
    current_bold := false
    current_italic := false
    current_underline := false
    current_strikethrough := false
    current_dim := 0
    fg_color_index := 0
    bg_color_index := 0 }

/-- The application states reachable from the initial empty document by
the document operations of the claim (partial operations such as
`apply_style` contribute a step only when they return a state, i.e. when
the Rust code does not panic). -/
inductive Reachable : App → Prop
  | init : Reachable App.init
  | insert (a : App) (ch : Char) : Reachable a → Reachable (a.insert_char ch)
  | delete (a : App) : Reachable a → Reachable a.delete_char
  | deleteForward (a : App) : Reachable a → Reachable a.delete_char_forward
  | moveLeft (a : App) : Reachable a → Reachable a.move_left
  | moveRight (a : App) : Reachable a → Reachable a.move_right
  | moveToStart (a : App) : Reachable a → Reachable a.move_to_start
  | moveToEnd (a : App) : Reachable a → Reachable a.move_to_end
  | startSelection (a : App) : Reachable a → Reachable a.start_selection
  | clearSelection (a : App) : Reachable a → Reachable a.clear_selection
  | applyStyle (a b : App) : Reachable a → a.apply_style = some b → Reachable b
  | toggleBold (a b : App) : Reachable a → a.toggle_bold = some b → Reachable b
  | toggleItalic (a b : App) : Reachable a → a.toggle_italic = some b → Reachable b
  | toggleUnderline (a b : App) : Reachable a → a.toggle_underline = some b → Reachable b
  | toggleStrikethrough (a b : App) : Reachable a → a.toggle_strikethrough = some b → Reachable b
  | cycleDim (a b : App) : Reachable a → a.cycle_dim = some b → Reachable b
  | loadStyle (a : App) : Reachable a → Reachable a.load_style_from_cursor
  | resetStyle (a : App) : Reachable a → Reachable a.reset_style

/-- The invariant of claim C3 exactly as the claim states it: cursor in
`[0, length]`, any present selection within `[0, length-1]` (i.e. both
endpoints are indices of existing characters) with `start ≤ end`, and a
selection is present iff the anchor is present. -/
def claimedInv (a : App) : Prop :=
  a.cursor_pos ≤ a.text.length ∧
  (a.selection.isSome ↔ a.selection_anchor.isSome) ∧
  (match a.selection with
   | some se => se.1 ≤ se.2 ∧ se.2 < a.text.length
   | none => True)

/-- The invariant that actually holds: selection endpoints are bounded
by the document length itself (a selection started at the end of the
buffer, in particular on an empty buffer, has its endpoints equal to the
length, one past the last character index). -/
def amendedInv (a : App) : Prop :=
  a.cursor_pos ≤ a.text.length ∧
  (a.selection.isSome ↔ a.selection_anchor.isSome) ∧
  (match a.selection with
   | some se => se.1 ≤ se.2 ∧ se.2 ≤ a.text.length
   | none => True) ∧
  (match a.selection_anchor with
   | some x => x ≤ a.text.length
   | none => True)

lemma amendedInv_clear_selection {a : App}
    (h : a.cursor_pos ≤ a.text.length) : amendedInv a.clear_selection :=
  ⟨h, by simp [App.clear_selection], by simp [App.clear_selection],
    by simp [App.clear_selection]⟩

lemma amendedInv_insert_char {a : App} (h : amendedInv a) (ch : Char) :
    amendedInv (a.insert_char ch) := by
  have h1 := h.1
  dsimp only [App.insert_char]
  refine amendedInv_clear_selection ?_
  dsimp only
  by_cases hc : a.cursor_pos ≥ a.text.length
  · rw [if_pos hc]
    simp only [List.length_append, List.length_singleton]
    omega
  · rw [if_neg hc]
    simp only [List.length_append, List.length_take, List.length_cons,
      List.length_drop]
    omega

lemma amendedInv_delete_char {a : App} (h : amendedInv a) :
    amendedInv a.delete_char := by
  have h1 := h.1
  unfold App.delete_char
  by_cases hc : a.cursor_pos > 0 ∧ a.text ≠ []
  · rw [if_pos hc]
    refine amendedInv_clear_selection ?_
    have hlen : 0 < a.text.length := by
      cases ht : a.text with
      | nil => exact absurd ht hc.2
      | cons x xs => simp [ht]
    have := List.length_eraseIdx_add_one
      (l := a.text) (i := a.cursor_pos - 1) (by omega)
    simp only
    omega
  · rw [if_neg hc]
    exact h

lemma amendedInv_delete_char_forward {a : App} (h : amendedInv a) :
    amendedInv a.delete_char_forward := by
  have h1 := h.1
  unfold App.delete_char_forward
  by_cases hc : a.cursor_pos < a.text.length
  · rw [if_pos hc]
    refine amendedInv_clear_selection ?_
    have := List.length_eraseIdx_add_one (l := a.text) (i := a.cursor_pos) hc
    simp only
    omega
  · rw [if_neg hc]
    exact h

lemma amendedInv_update_selection {a : App} (h : amendedInv a) :
    amendedInv a.update_selection := by
  obtain ⟨h1, h2, h3, h4⟩ := h
  unfold App.update_selection
  by_cases hm : a.mode = Mode.Selecting
  · rw [if_pos hm]
    cases hanc : a.selection_anchor with
    | none => exact ⟨h1, h2, h3, h4⟩
    | some x =>
      rw [hanc] at h4
      simp only at h4
      refine ⟨h1, by simp, ?_, by simpa using h4⟩
      simp only
      omega
  · rw [if_neg hm]
    exact ⟨h1, h2, h3, h4⟩

lemma amendedInv_setCursor {a : App} (h : amendedInv a) {c : Nat}
    (hc : c ≤ a.text.length) : amendedInv { a with cursor_pos := c } :=
  ⟨hc, h.2.1, h.2.2.1, h.2.2.2⟩

lemma amendedInv_move_left {a : App} (h : amendedInv a) :
    amendedInv a.move_left := by
  unfold App.move_left
  by_cases hc : a.cursor_pos > 0
  · rw [if_pos hc]
    exact amendedInv_update_selection
      (amendedInv_setCursor h (Nat.le_trans (Nat.sub_le _ _) h.1))
  · rw [if_neg hc]; exact h

lemma amendedInv_move_right {a : App} (h : amendedInv a) :
    amendedInv a.move_right := by
  unfold App.move_right
  by_cases hc : a.cursor_pos < a.text.length
  · rw [if_pos hc]
    exact amendedInv_update_selection (amendedInv_setCursor h hc)
  · rw [if_neg hc]; exact h

lemma amendedInv_move_to_start {a : App} (h : amendedInv a) :
    amendedInv a.move_to_start :=
  amendedInv_update_selection (amendedInv_setCursor h (Nat.zero_le _))

lemma amendedInv_move_to_end {a : App} (h : amendedInv a) :
    amendedInv a.move_to_end :=
  amendedInv_update_selection (amendedInv_setCursor h le_rfl)

lemma amendedInv_start_selection {a : App} (h : amendedInv a) :
    amendedInv a.start_selection := by
  have h1 := h.1
  exact ⟨h1, by simp [App.start_selection],
    by simp [App.start_selection]; exact h1,
    by simp [App.start_selection]; exact h1⟩

lemma setStyleAt_length {text t : List StyledChar} {i : Nat} {st : CharStyle}
    (h : setStyleAt text i st = some t) : t.length = text.length := by
  unfold setStyleAt at h
  split at h
  · cases h; simp
  · cases h

lemma applyIdxs_length {st : CharStyle} :
    ∀ {idxs : List Nat} {text t : List StyledChar},
      applyIdxs text st idxs = some t → t.length = text.length := by
  intro idxs
  induction idxs with
  | nil => intro text t h; cases h; rfl
  | cons i is ih =>
    intro text t h
    unfold applyIdxs at h
    cases hs : setStyleAt text i st with
    | none => rw [hs] at h; cases h
    | some t1 =>
      rw [hs] at h
      exact (ih h).trans (setStyleAt_length hs)

lemma apply_style_shape {a b : App} (h : a.apply_style = some b) :
    b.text.length = a.text.length ∧ b.cursor_pos = a.cursor_pos ∧
    b.selection = a.selection ∧ b.selection_anchor = a.selection_anchor := by
  unfold App.apply_style at h
  cases hsel : a.selection with
  | some se =>
    obtain ⟨s, e⟩ := se
    rw [hsel] at h
    simp only at h
    cases hr : applyRange a.text _ s (min e (a.text.length - 1)) with
    | none => rw [hr] at h; cases h
    | some t =>
      rw [hr] at h
      cases h
      exact ⟨applyIdxs_length hr, rfl, hsel.symm ▸ rfl, rfl⟩
  | none =>
    rw [hsel] at h
    simp only at h
    split at h <;> cases h
    · exact ⟨by simp, rfl, hsel.symm ▸ rfl, rfl⟩
    · exact ⟨rfl, rfl, hsel.symm ▸ rfl, rfl⟩

lemma amendedInv_of_shape {a b : App}
    (hsh : b.text.length = a.text.length ∧ b.cursor_pos = a.cursor_pos ∧
      b.selection = a.selection ∧ b.selection_anchor = a.selection_anchor)
    (h : amendedInv a) : amendedInv b := by
  obtain ⟨e1, e2, e3, e4⟩ := hsh
  obtain ⟨h1, h2, h3, h4⟩ := h
  refine ⟨by omega, by rw [e3, e4]; exact h2, ?_, ?_⟩
  · rw [e3, e1]; exact h3
  · rw [e4, e1]; exact h4

lemma amendedInv_apply_style {a b : App} (h : amendedInv a)
    (hb : a.apply_style = some b) : amendedInv b :=
  amendedInv_of_shape (apply_style_shape hb) h

lemma amendedInv_styleFields {a a' : App}
    (ht : a'.text = a.text) (hc : a'.cursor_pos = a.cursor_pos)
    (hs : a'.selection = a.selection)
    (ha : a'.selection_anchor = a.selection_anchor)
    (h : amendedInv a) : amendedInv a' :=
  amendedInv_of_shape ⟨by rw [ht], hc, hs, ha⟩ h

lemma amendedInv_load_style {a : App} (h : amendedInv a) :
    amendedInv a.load_style_from_cursor := by
  unfold App.load_style_from_cursor
  split
  · exact amendedInv_styleFields rfl rfl rfl rfl h
  · exact h

lemma amendedInv_reset_style {a : App} (h : amendedInv a) :
    amendedInv a.reset_style :=
  amendedInv_styleFields rfl rfl rfl rfl h

lemma amendedInv_reachable : ∀ a : App, Reachable a → amendedInv a := by
  intro a h
  induction h with
  | init => exact ⟨by simp [App.init], by simp [App.init], by simp [App.init],
      by simp [App.init]⟩
  | insert a ch _ ih => exact amendedInv_insert_char ih ch
  | delete a _ ih => exact amendedInv_delete_char ih
  | deleteForward a _ ih => exact amendedInv_delete_char_forward ih
  | moveLeft a _ ih => exact amendedInv_move_left ih
  | moveRight a _ ih => exact amendedInv_move_right ih
  | moveToStart a _ ih => exact amendedInv_move_to_start ih
  | moveToEnd a _ ih => exact amendedInv_move_to_end ih
  | startSelection a _ ih => exact amendedInv_start_selection ih
  | clearSelection a _ ih => exact amendedInv_clear_selection ih.1
  | applyStyle a b _ hb ih => exact amendedInv_apply_style ih hb
  | toggleBold a b _ hb ih =>
    unfold App.toggle_bold at hb
    refine amendedInv_apply_style ?_ hb
    exact amendedInv_styleFields rfl rfl rfl rfl ih
  | toggleItalic a b _ hb ih =>
    unfold App.toggle_italic at hb
    refine amendedInv_apply_style ?_ hb
    exact amendedInv_styleFields rfl rfl rfl rfl ih
  | toggleUnderline a b _ hb ih =>
    unfold App.toggle_underline at hb
    refine amendedInv_apply_style ?_ hb
    exact amendedInv_styleFields rfl rfl rfl rfl ih
  | toggleStrikethrough a b _ hb ih =>
    unfold App.toggle_strikethrough at hb
    refine amendedInv_apply_style ?_ hb
    exact amendedInv_styleFields rfl rfl rfl rfl ih
  | cycleDim a b _ hb ih =>
    unfold App.cycle_dim at hb
    refine amendedInv_apply_style ?_ hb
    exact amendedInv_styleFields rfl rfl rfl rfl ih
  | loadStyle a _ ih => exact amendedInv_load_style ih
  | resetStyle a _ ih => exact amendedInv_reset_style ih

/-- C2: the claim says `apply_style` never accesses an index out of
bounds on any reachable state, including an empty document with an
active selection.  The state reached from the initial empty document by
`start_selection` (bound to the `v` key with no emptiness guard) has
`selection = some (0, 0)` and an empty buffer, and on it `apply_style`
evaluates `text[0]`, which is out of bounds: the embedded operation
returns `none`, i.e. the Rust loop
`for i in start..=end.min(len.saturating_sub(1))` indexes an empty
vector and panics, contradicting the claimed no-panic/no-op behavior. -/
theorem c2_apply_style_out_of_bounds :
    Reachable App.init.start_selection ∧
    App.init.start_selection.text = [] ∧
    App.init.start_selection.selection = some (0, 0) ∧
    App.init.start_selection.apply_style = none :=
  ⟨Reachable.startSelection _ Reachable.init, rfl, rfl, by decide⟩

/-- C3 (counterexample): the state reached from the initial empty
document by `start_selection` alone is reachable, yet violates the
claimed invariant that both selection endpoints lie in
`[0, length - 1]`: its selection is `some (0, 0)` while the document
length is 0. -/
theorem c3_counterexample :
    Reachable App.init.start_selection ∧
    ¬ claimedInv App.init.start_selection := by
  refine ⟨Reachable.startSelection _ Reachable.init, ?_⟩
  intro h
  obtain ⟨-, -, h3⟩ := h
  simp [App.start_selection, App.init] at h3

/-- C3 (amended): every operation sequence from the initial empty
document preserves the invariants with the selection bound relaxed to
`[0, length]` (a selection started at the buffer end has its endpoints
equal to the length): the cursor stays in `[0, length]`, any present
selection satisfies `start ≤ end ≤ length`, a selection is present iff
the anchor is present; moreover inserting always clears the selection,
deleting either is a no-op or clears the selection, and `move_left` and
`delete_char` at cursor 0 are no-ops. -/
theorem c3_invariants_preserved :
    (∀ a : App, Reachable a → amendedInv a) ∧
    (∀ (a : App) (ch : Char), (a.insert_char ch).selection = none ∧
      (a.insert_char ch).selection_anchor = none) ∧
    (∀ a : App, a.delete_char = a ∨
      (a.delete_char.selection = none ∧
        a.delete_char.selection_anchor = none)) ∧
    (∀ a : App, a.delete_char_forward = a ∨
      (a.delete_char_forward.selection = none ∧
        a.delete_char_forward.selection_anchor = none)) ∧
    (∀ a : App, a.cursor_pos = 0 → a.move_left = a) ∧
    (∀ a : App, a.cursor_pos = 0 → a.delete_char = a) := by
  refine ⟨amendedInv_reachable, ?_, ?_, ?_, ?_, ?_⟩
  · intro a ch
    constructor <;> simp [App.insert_char, App.clear_selection]
  · intro a
    by_cases hc : a.cursor_pos > 0 ∧ a.text ≠ []
    · right
      unfold App.delete_char
      rw [if_pos hc]
      constructor <;> simp [App.clear_selection]
    · left
      unfold App.delete_char
      rw [if_neg hc]
  · intro a
    by_cases hc : a.cursor_pos < a.text.length
    · right
      unfold App.delete_char_forward
      rw [if_pos hc]
      constructor <;> simp [App.clear_selection]
    · left
      unfold App.delete_char_forward
      rw [if_neg hc]
  · intro a h0
    unfold App.move_left
    rw [if_neg (by omega)]
  · intro a h0
    unfold App.delete_char
    rw [if_neg (by simp [h0])]

/-- Witness for C3: the amended invariant evaluated on the concrete
reachable state `start_selection` of the initial document, and the
cursor-0 no-op on the initial document. -/
theorem c3_invariants_preserved_witness :
    amendedInv App.init.start_selection ∧ App.init.move_left = App.init :=
  ⟨c3_invariants_preserved.1 _ (Reachable.startSelection _ Reachable.init),
   c3_invariants_preserved.2.2.2.2.1 App.init rfl⟩

/-- `ParseState` from `src/import.rs`: the mutable style accumulator of
the ANSI parser (dim is a plain boolean here). -/
structure ParseState : Type where
  fg : Color
  bg : Color
  bold : Bool
  italic : Bool
  underline : Bool
  strikethrough : Bool
  dim : Bool
  deriving DecidableEq, Repr

/-- `ParseState::default()` (all fields default, colors `Reset`). -/
def ParseState.deflt : ParseState :=
  { fg := Color.Reset
    bg := Color.Reset
    bold := false
    italic := false
    underline := false
    strikethrough := false
    dim := false }

/-- `ParseState::to_char_style` from `src/import.rs`: dim decodes to
level 1 when the boolean is set, level 0 otherwise. -/
def ParseState.to_char_style (s : ParseState) : CharStyle :=
  { fg := s.fg
    bg := s.bg
    bold := s.bold
    italic := s.italic
    underline := s.underline
    strikethrough := s.strikethrough
    dim_level := if s.dim then 1 else 0 }

/-- `apply_sgr_param` from `src/import.rs`: interprets the parameter at
position `i` of `ps`, returning the updated state together with the
final value of the mutable index (codes 38/48 advance it over their
extra slots; `as u8` casts are `% 256`). -/
def apply_sgr_param (s : ParseState) (ps : List Nat) (i : Nat) :
    ParseState × Nat :=
  if i ≥ ps.length then (s, i)
  else
    match ps.getD i 0 with
    | 0 => (ParseState.deflt, i)
    | 1 => ({ s with bold := true }, i)
    | 2 => ({ s with dim := true }, i)
    | 3 => ({ s with italic := true }, i)
    | 4 => ({ s with underline := true }, i)
    | 9 => ({ s with strikethrough := true }, i)
    | 22 => ({ s with bold := false, dim := false }, i)
    | 23 => ({ s with italic := false }, i)
    | 24 => ({ s with underline := false }, i)
    | 29 => ({ s with strikethrough := false }, i)
    | 30 => ({ s with fg := Color.Black }, i)
    | 31 => ({ s with fg := Color.Red }, i)
    | 32 => ({ s with fg := Color.Green }, i)
    | 33 => ({ s with fg := Color.Yellow }, i)
    | 34 => ({ s with fg := Color.Blue }, i)
    | 35 => ({ s with fg := Color.Magenta }, i)
    | 36 => ({ s with fg := Color.Cyan }, i)
    | 37 => ({ s with fg := Color.White }, i)
    | 38 =>
      if i + 1 < ps.length then
        match ps.getD (i + 1) 0 with
        | 5 =>
          if i + 2 < ps.length then
            ({ s with fg := Color.Indexed (ps.getD (i + 2) 0 % 256) }, i + 2)
          else (s, i + 2)
        | 2 =>
          if i + 1 + 3 < ps.length then
            let c := Color.Rgb (ps.getD (i + 2) 0 % 256)
              (ps.getD (i + 3) 0 % 256) (ps.getD (i + 4) 0 % 256)
            ({ s with fg := c }, i + 4)
          else (s, i + 1)
        | _ => (s, i + 1)
      else (s, i + 1)
    | 39 => ({ s with fg := Color.Reset }, i)
    | 40 => ({ s with bg := Color.Black }, i)
    | 41 => ({ s with bg := Color.Red }, i)
    | 42 => ({ s with bg := Color.Green }, i)
    | 43 => ({ s with bg := Color.Yellow }, i)
    | 44 => ({ s with bg := Color.Blue }, i)
    | 45 => ({ s with bg := Color.Magenta }, i)
    | 46 => ({ s with bg := Color.Cyan }, i)
    | 47 => ({ s with bg := Color.White }, i)
    | 48 =>
      if i + 1 < ps.length then
        match ps.getD (i + 1) 0 with
        | 5 =>
          if i + 2 < ps.length then
            ({ s with bg := Color.Indexed (ps.getD (i + 2) 0 % 256) }, i + 2)
          else (s, i + 2)
        | 2 =>
          if i + 1 + 3 < ps.length then
            let c := Color.Rgb (ps.getD (i + 2) 0 % 256)
              (ps.getD (i + 3) 0 % 256) (ps.getD (i + 4) 0 % 256)
            ({ s with bg := c }, i + 4)
          else (s, i + 1)
        | _ => (s, i + 1)
      else (s, i + 1)
    | 49 => ({ s with bg := Color.Reset }, i)
    | 90 => ({ s with fg := Color.DarkGray }, i)
    | 91 => ({ s with fg := Color.LightRed }, i)
    | 92 => ({ s with fg := Color.LightGreen }, i)
    | 93 => ({ s with fg := Color.LightYellow }, i)
    | 94 => ({ s with fg := Color.LightBlue }, i)
    | 95 => ({ s with fg := Color.LightMagenta }, i)
    | 96 => ({ s with fg := Color.LightCyan }, i)
    | 97 => ({ s with fg := Color.Gray }, i)
    | 100 => ({ s with bg := Color.DarkGray }, i)
    | 101 => ({ s with bg := Color.LightRed }, i)
    | 102 => ({ s with bg := Color.LightGreen }, i)
    | 103 => ({ s with bg := Color.LightYellow }, i)
    | 104 => ({ s with bg := Color.LightBlue }, i)
    | 105 => ({ s with bg := Color.LightMagenta }, i)
    | 106 => ({ s with bg := Color.LightCyan }, i)
    | 107 => ({ s with bg := Color.Gray }, i)
    | _ => (s, i)

/-- The parameter loop of `parse_ansi` (`src/import.rs`): starting at
the head of the remaining suffix (index 0 of `ps'`), apply one
parameter, then resume after the final index.  Each iteration consumes
at least one slot, so a fuel of `ps.length` is exact. -/
def processParamsF : Nat → ParseState → List Nat → ParseState
  | 0, s, _ => s
  | _ + 1, s, [] => s
  | fuel + 1, s, p :: rest =>
    let r := apply_sgr_param s (p :: rest) 0
    processParamsF fuel r.1 ((p :: rest).drop (r.2 + 1))

/-- `while i < params.len() { apply_sgr_param(&mut state, &params, &mut i);
i += 1; }` from `parse_ansi`. -/
def processParams (s : ParseState) (ps : List Nat) : ParseState :=
  processParamsF ps.length s ps

/-- The same SGR interpretation written as structural recursion over the
parameter list: each multi-slot code consumes its lookahead slots from
the suffix exactly as `apply_sgr_param` advances the index.  Proved
equivalent to `processParams` below. -/
def sgrRun : ParseState → List Nat → ParseState
  | s, [] => s
  | s, p :: rest =>
    match p with
    | 0 => sgrRun ParseState.deflt rest
    | 1 => sgrRun { s with bold := true } rest
    | 2 => sgrRun { s with dim := true } rest
    | 3 => sgrRun { s with italic := true } rest
    | 4 => sgrRun { s with underline := true } rest
    | 9 => sgrRun { s with strikethrough := true } rest
    | 22 => sgrRun { s with bold := false, dim := false } rest
    | 23 => sgrRun { s with italic := false } rest
    | 24 => sgrRun { s with underline := false } rest
    | 29 => sgrRun { s with strikethrough := false } rest
    | 30 => sgrRun { s with fg := Color.Black } rest
    | 31 => sgrRun { s with fg := Color.Red } rest
    | 32 => sgrRun { s with fg := Color.Green } rest
    | 33 => sgrRun { s with fg := Color.Yellow } rest
    | 34 => sgrRun { s with fg := Color.Blue } rest
    | 35 => sgrRun { s with fg := Color.Magenta } rest
    | 36 => sgrRun { s with fg := Color.Cyan } rest
    | 37 => sgrRun { s with fg := Color.White } rest
    | 38 =>
      match rest with
      | 5 :: n :: r => sgrRun { s with fg := Color.Indexed (n % 256) } r
      | 2 :: a :: b :: c :: rr =>
          sgrRun { s with fg := Color.Rgb (a % 256) (b % 256) (c % 256) } rr
      | [] => s
      | _ :: rr => sgrRun s rr
    | 39 => sgrRun { s with fg := Color.Reset } rest
    | 40 => sgrRun { s with bg := Color.Black } rest
    | 41 => sgrRun { s with bg := Color.Red } rest
    | 42 => sgrRun { s with bg := Color.Green } rest
    | 43 => sgrRun { s with bg := Color.Yellow } rest
    | 44 => sgrRun { s with bg := Color.Blue } rest
    | 45 => sgrRun { s with bg := Color.Magenta } rest
    | 46 => sgrRun { s with bg := Color.Cyan } rest
    | 47 => sgrRun { s with bg := Color.White } rest
    | 48 =>
      match rest with
      | 5 :: n :: r => sgrRun { s with bg := Color.Indexed (n % 256) } r
      | 2 :: a :: b :: c :: rr =>
          sgrRun { s with bg := Color.Rgb (a % 256) (b % 256) (c % 256) } rr
      | [] => s
      | _ :: rr => sgrRun s rr
    | 49 => sgrRun { s with bg := Color.Reset } rest
    | 90 => sgrRun { s with fg := Color.DarkGray } rest
    | 91 => sgrRun { s with fg := Color.LightRed } rest
    | 92 => sgrRun { s with fg := Color.LightGreen } rest
    | 93 => sgrRun { s with fg := Color.LightYellow } rest
    | 94 => sgrRun { s with fg := Color.LightBlue } rest
    | 95 => sgrRun { s with fg := Color.LightMagenta } rest
    | 96 => sgrRun { s with fg := Color.LightCyan } rest
    | 97 => sgrRun { s with fg := Color.Gray } rest
    | 100 => sgrRun { s with bg := Color.DarkGray } rest
    | 101 => sgrRun { s with bg := Color.LightRed } rest
    | 102 => sgrRun { s with bg := Color.LightGreen } rest
    | 103 => sgrRun { s with bg := Color.LightYellow } rest
    | 104 => sgrRun { s with bg := Color.LightBlue } rest
    | 105 => sgrRun { s with bg := Color.LightMagenta } rest
    | 106 => sgrRun { s with bg := Color.LightCyan } rest
    | 107 => sgrRun { s with bg := Color.Gray } rest
    | _ => sgrRun s rest

lemma processParamsF_nil (fuel : Nat) (s : ParseState) :
    processParamsF fuel s [] = s := by
  cases fuel <;> rfl

/-- The single-slot SGR codes handled by `apply_sgr_param`. -/
def simpleCodes : List Nat :=
  [0, 1, 2, 3, 4, 9, 22, 23, 24, 29,
   30, 31, 32, 33, 34, 35, 36, 37, 39,
   40, 41, 42, 43, 44, 45, 46, 47, 49,
   90, 91, 92, 93, 94, 95, 96, 97,
   100, 101, 102, 103, 104, 105, 106, 107]

set_option maxHeartbeats 1000000 in
lemma apply_sgr_param_other (s : ParseState) (p : Nat) (rest : List Nat)
    (hm : p ∉ simpleCodes) (h38 : p ≠ 38) (h48 : p ≠ 48) :
    apply_sgr_param s (p :: rest) 0 = (s, 0) := by
  simp only [simpleCodes, List.mem_cons, List.not_mem_nil, or_false,
    not_or] at hm
  unfold apply_sgr_param
  rw [if_neg (by simp)]
  simp only [List.getD_cons_zero]
  split <;> first | rfl | (exfalso; omega)

set_option maxHeartbeats 1000000 in
lemma sgrRun_other (s : ParseState) (p : Nat) (rest : List Nat)
    (hm : p ∉ simpleCodes) (h38 : p ≠ 38) (h48 : p ≠ 48) :
    sgrRun s (p :: rest) = sgrRun s rest := by
  simp only [simpleCodes, List.mem_cons, List.not_mem_nil, or_false,
    not_or] at hm
  conv_lhs => unfold sgrRun
  split <;> first | rfl | (exfalso; omega)


lemma apply_sgr_param_38_skip (s : ParseState) (q : Nat) (rr : List Nat)
    (h5 : q ≠ 5) (h2 : q ≠ 2) :
    apply_sgr_param s (38 :: q :: rr) 0 = (s, 1) := by
  unfold apply_sgr_param
  rw [if_neg (by simp)]
  dsimp only [List.getD_cons_zero, List.getD_cons_succ]
  rw [if_pos (by simp only [List.length_cons]; omega)]
  split <;> first | rfl | (exfalso; omega)

lemma apply_sgr_param_48_skip (s : ParseState) (q : Nat) (rr : List Nat)
    (h5 : q ≠ 5) (h2 : q ≠ 2) :
    apply_sgr_param s (48 :: q :: rr) 0 = (s, 1) := by
  unfold apply_sgr_param
  rw [if_neg (by simp)]
  dsimp only [List.getD_cons_zero, List.getD_cons_succ]
  rw [if_pos (by simp only [List.length_cons]; omega)]
  split <;> first | rfl | (exfalso; omega)

lemma sgrRun_38_skip (s : ParseState) (q : Nat) (rr : List Nat)
    (h5 : q ≠ 5) (h2 : q ≠ 2) :
    sgrRun s (38 :: q :: rr) = sgrRun s rr := by
  conv_lhs => unfold sgrRun
  split <;> simp_all

lemma sgrRun_48_skip (s : ParseState) (q : Nat) (rr : List Nat)
    (h5 : q ≠ 5) (h2 : q ≠ 2) :
    sgrRun s (48 :: q :: rr) = sgrRun s rr := by
  conv_lhs => unfold sgrRun
  split <;> simp_all

/-- The fuel-indexed loop of `parse_ansi`, given enough fuel, computes
exactly the structural interpretation `sgrRun`. -/
lemma processParamsF_eq_sgrRun :
    ∀ (fuel : Nat) (s : ParseState) (ps : List Nat), ps.length ≤ fuel →
      processParamsF fuel s ps = sgrRun s ps := by
  intro fuel
  induction fuel with
  | zero =>
    intro s ps h
    rw [List.length_eq_zero.mp (Nat.le_zero.mp h)]
    rfl
  | succ fuel ih =>
    intro s ps h
    cases ps with
    | nil => rfl
    | cons p rest =>
      simp only [List.length_cons, Nat.succ_le_succ_iff] at h
      by_cases h38 : p = 38
      · subst h38
        rcases rest with _ | ⟨q, rr⟩
        · exact processParamsF_nil fuel s
        · by_cases hq5 : q = 5
          · subst hq5
            rcases rr with _ | ⟨n, r⟩
            · exact processParamsF_nil fuel s
            · have hA : apply_sgr_param s (38 :: 5 :: n :: r) 0 = ({ s with fg := Color.Indexed (n % 256) }, 2) := by
                simp [apply_sgr_param]
              have e2 : sgrRun s (38 :: 5 :: n :: r) = sgrRun { s with fg := Color.Indexed (n % 256) } r := rfl
              simp only [processParamsF, hA, List.drop_succ_cons, List.drop_zero, e2]
              refine ih _ r ?_
              simp only [List.length_cons] at h
              omega
          · by_cases hq2 : q = 2
            · subst hq2
              rcases rr with _ | ⟨a, _ | ⟨b, _ | ⟨c, rr2⟩⟩⟩
              · exact processParamsF_nil fuel s
              · have hA : apply_sgr_param s [38, 2, a] 0 = (s, 1) := by
                  simp [apply_sgr_param]
                have e2 : sgrRun s [38, 2, a] = sgrRun s [a] := rfl
                simp only [processParamsF, hA, List.drop_succ_cons, List.drop_zero, e2]
                refine ih s [a] ?_
                simp only [List.length_cons, List.length_nil] at h ⊢
                omega
              · have hA : apply_sgr_param s [38, 2, a, b] 0 = (s, 1) := by
                  simp [apply_sgr_param]
                have e2 : sgrRun s [38, 2, a, b] = sgrRun s [a, b] := rfl
                simp only [processParamsF, hA, List.drop_succ_cons, List.drop_zero, e2]
                refine ih s [a, b] ?_
                simp only [List.length_cons, List.length_nil] at h ⊢
                omega
              · have hA : apply_sgr_param s (38 :: 2 :: a :: b :: c :: rr2) 0 = ({ s with fg := Color.Rgb (a % 256) (b % 256) (c % 256) }, 4) := by
                  simp [apply_sgr_param]
                have e2 : sgrRun s (38 :: 2 :: a :: b :: c :: rr2) = sgrRun { s with fg := Color.Rgb (a % 256) (b % 256) (c % 256) } rr2 := rfl
                simp only [processParamsF, hA, List.drop_succ_cons, List.drop_zero, e2]
                refine ih _ rr2 ?_
                simp only [List.length_cons] at h
                omega
            · simp only [processParamsF, apply_sgr_param_38_skip s q rr hq5 hq2,
                List.drop_succ_cons, List.drop_zero]
              rw [sgrRun_38_skip s q rr hq5 hq2]
              refine ih s rr ?_
              simp only [List.length_cons] at h
              omega
      by_cases h48 : p = 48
      · subst h48
        rcases rest with _ | ⟨q, rr⟩
        · exact processParamsF_nil fuel s
        · by_cases hq5 : q = 5
          · subst hq5
            rcases rr with _ | ⟨n, r⟩
            · exact processParamsF_nil fuel s
            · have hA : apply_sgr_param s (48 :: 5 :: n :: r) 0 = ({ s with bg := Color.Indexed (n % 256) }, 2) := by
                simp [apply_sgr_param]
              have e2 : sgrRun s (48 :: 5 :: n :: r) = sgrRun { s with bg := Color.Indexed (n % 256) } r := rfl
              simp only [processParamsF, hA, List.drop_succ_cons, List.drop_zero, e2]
              refine ih _ r ?_
              simp only [List.length_cons] at h
              omega
          · by_cases hq2 : q = 2
            · subst hq2
              rcases rr with _ | ⟨a, _ | ⟨b, _ | ⟨c, rr2⟩⟩⟩
              · exact processParamsF_nil fuel s
              · have hA : apply_sgr_param s [48, 2, a] 0 = (s, 1) := by
                  simp [apply_sgr_param]
                have e2 : sgrRun s [48, 2, a] = sgrRun s [a] := rfl
                simp only [processParamsF, hA, List.drop_succ_cons, List.drop_zero, e2]
                refine ih s [a] ?_
                simp only [List.length_cons, List.length_nil] at h ⊢
                omega
              · have hA : apply_sgr_param s [48, 2, a, b] 0 = (s, 1) := by
                  simp [apply_sgr_param]
                have e2 : sgrRun s [48, 2, a, b] = sgrRun s [a, b] := rfl
                simp only [processParamsF, hA, List.drop_succ_cons, List.drop_zero, e2]
                refine ih s [a, b] ?_
                simp only [List.length_cons, List.length_nil] at h ⊢
                omega
              · have hA : apply_sgr_param s (48 :: 2 :: a :: b :: c :: rr2) 0 = ({ s with bg := Color.Rgb (a % 256) (b % 256) (c % 256) }, 4) := by
                  simp [apply_sgr_param]
                have e2 : sgrRun s (48 :: 2 :: a :: b :: c :: rr2) = sgrRun { s with bg := Color.Rgb (a % 256) (b % 256) (c % 256) } rr2 := rfl
                simp only [processParamsF, hA, List.drop_succ_cons, List.drop_zero, e2]
                refine ih _ rr2 ?_
                simp only [List.length_cons] at h
                omega
            · simp only [processParamsF, apply_sgr_param_48_skip s q rr hq5 hq2,
                List.drop_succ_cons, List.drop_zero]
              rw [sgrRun_48_skip s q rr hq5 hq2]
              refine ih s rr ?_
              simp only [List.length_cons] at h
              omega
      by_cases hmem : p ∈ simpleCodes
      · fin_cases hmem <;>
          simp only [processParamsF, apply_sgr_param, sgrRun, List.drop_succ_cons,
            List.drop_zero, List.getD_cons_zero, List.length_cons,
            Nat.not_succ_le_zero, ge_iff_le, Nat.le_zero, if_false,
            List.length_eq_zero, reduceCtorEq] <;>
          exact ih _ rest h
      · simp only [processParamsF, apply_sgr_param_other s p rest hmem h38 h48,
          List.drop_succ_cons, List.drop_zero]
        rw [sgrRun_other s p rest hmem h38 h48]
        exact ih s rest h

/-- `processParams` (the source while-loop with its index cursor) is the
structural interpretation `sgrRun`. -/
lemma processParams_eq_sgrRun (s : ParseState) (ps : List Nat) :
    processParams s ps = sgrRun s ps :=
  processParamsF_eq_sgrRun ps.length s ps le_rfl

/-- A token of the ANSI grammar: a display character or one SGR escape
sequence's parameter list. -/
inductive Tok : Type
  | chr (c : Char)
  | sgr (ps : List Nat)
  deriving DecidableEq, Repr

/-- Read a maximal run of decimal digits, accumulating the value. -/
def readNum : List Char → Nat → Nat × List Char
  | [], acc => (acc, [])
  | c :: cs, acc =>
    if c.isDigit then readNum cs (acc * 10 + (c.toNat - 48))
    else (acc, c :: cs)

/-- Parse a non-empty `;`-separated list of decimal parameters followed
by the terminator `m`; returns the values and the remaining input.
Fuel-indexed (one unit per parameter; the input length plus one is
always sufficient). -/
def parseNumListF : Nat → List Char → Option (List Nat × List Char)
  | 0, _ => none
  | fuel + 1, l =>
    match l with
    | [] => none
    | c :: cs =>
      if c.isDigit then
        let r := readNum (c :: cs) 0
        match r.2 with
        | 'm' :: rest => some ([r.1], rest)
        | ';' :: rest =>
          match parseNumListF fuel rest with
          | some (ns, rest2) => some (r.1 :: ns, rest2)
          | none => none
        | _ => none
      else none

/-- Parameter-list parsing with its canonical fuel. -/
def parseNumList (l : List Char) : Option (List Nat × List Char) :=
  parseNumListF (l.length + 1) l

/-- The body of an SGR sequence after the introducer: either the bare
terminator `m` (empty parameter list) or a parameter list. -/
def parseSgrBody (l : List Char) : Option (List Nat × List Char) :=
  match l with
  | 'm' :: rest => some ([], rest)
  | _ => parseNumList l

/-- `params.len()` filter of `parse_ansi`: the source collects the
numeric parameters with `filter_map(|p| p.as_str().parse::<u32>().ok())`,
silently dropping any digit run that overflows `u32`. -/
def u32filter (ns : List Nat) : List Nat :=
  ns.filter (fun n => n < 4294967296)

/-- Modelled from the spec: the grammar file `ansi.pest` referenced by
`src/import.rs` is not among the provided sources.  Following §4.2 of
the specification, one token is a plain character, a two-character
literal escape (`\n`, `\t`, `\r`), or an SGR escape sequence introduced
by the raw ESC byte or one of the literal spellings `\033[`, `\x1b[`,
`\e[` (longest match first) and terminated by `m`; a malformed or
unterminated sequence fails the parse with an error and no partial
output.  `tokStep` consumes one token and returns it with the remaining
input (`none` at the end of input). -/
def tokStep : List Char → Except String (Option (Tok × List Char))
  | [] => Except.ok none
  | c :: cs =>
    if c = '\x1b' then
      match cs with
      | '[' :: cs2 =>
        match parseSgrBody cs2 with
        | some (ps, rest) => Except.ok (some (Tok.sgr (u32filter ps), rest))
        | none => Except.error ("malformed escape sequence")
      | _ => Except.error ("malformed escape sequence")
    else if c = '\\' then
      match cs with
      | '0' :: '3' :: '3' :: '[' :: cs2 =>
        match parseSgrBody cs2 with
        | some (ps, rest) => Except.ok (some (Tok.sgr (u32filter ps), rest))
        | none => Except.error ("malformed escape sequence")
      | 'x' :: '1' :: 'b' :: '[' :: cs2 =>
        match parseSgrBody cs2 with
        | some (ps, rest) => Except.ok (some (Tok.sgr (u32filter ps), rest))
        | none => Except.error ("malformed escape sequence")
      | 'e' :: '[' :: cs2 =>
        match parseSgrBody cs2 with
        | some (ps, rest) => Except.ok (some (Tok.sgr (u32filter ps), rest))
        | none => Except.error ("malformed escape sequence")
      | 'n' :: cs2 => Except.ok (some (Tok.chr '\n', cs2))
      | 't' :: cs2 => Except.ok (some (Tok.chr '\t', cs2))
      | 'r' :: cs2 => Except.ok (some (Tok.chr '\r', cs2))
      | _ => Except.ok (some (Tok.chr '\\', cs))
    else Except.ok (some (Tok.chr c, cs))

/-- Iterate `tokStep`; each step consumes at least one character, so the
input length is always sufficient fuel. -/
def tokenizeF : Nat → List Char → Except String (List Tok)
  | 0, l => match l with
    | [] => Except.ok []
    | _ :: _ => Except.error ("out of fuel")
  | fuel + 1, l =>
    match tokStep l with
    | Except.error e => Except.error e
    | Except.ok none => Except.ok []
    | Except.ok (some (t, rest)) =>
      (tokenizeF fuel rest).map (fun ts => t :: ts)

/-- Tokenize a character sequence with its length as fuel. -/
def tokenize (l : List Char) : Except String (List Tok) :=
  tokenizeF l.length l

/-- The emission loop of `parse_ansi` (`src/import.rs`): characters are
stamped with a snapshot of the accumulator; an SGR token runs the
parameter loop and then resets the accumulator when the parameter list
is empty. -/
def runToks : ParseState → List Tok → List StyledChar
  | _, [] => []
  | s, Tok.chr c :: ts => StyledChar.with_style c s.to_char_style :: runToks s ts
  | s, Tok.sgr ps :: ts =>
    runToks (if ps.isEmpty then ParseState.deflt else processParams s ps) ts

/-- `parse_ansi` from `src/import.rs`: tokenize (grammar), then run the
SGR state machine over the tokens starting from the default style. -/
def parse_ansi (input : String) : Except String (List StyledChar) :=
  (tokenize input.data).map (runToks ParseState.deflt)

/-- C5 (amended): interpreting SGR code 38 (mirrored by 48 for the
background) with next parameter 5 consumes two extra slots and sets the
foreground (background) to the indexed color of the following parameter;
with next parameter 2 and at least three following parameters it
consumes four extra slots and sets the RGB triple; a bare 38/48, a 5
form with no following slot, or a truncated RGB form does not itself
set a color and does not fail (the call returns normally), but the
truncated RGB form leaves the index on the `2` slot, so the parameters
after the `2` are subsequently interpreted as independent SGR codes and
may still change the style of later characters. -/
theorem c5_extended_colors (s : ParseState) (ps : List Nat) (i : Nat)
    (hi : i < ps.length) :
    (ps.getD i 0 = 38 →
      ((ps.getD (i + 1) 0 = 5 → i + 2 < ps.length →
        apply_sgr_param s ps i =
          ({ s with fg := Color.Indexed (ps.getD (i + 2) 0 % 256) }, i + 2)) ∧
       (ps.getD (i + 1) 0 = 2 → i + 4 < ps.length →
        apply_sgr_param s ps i = ({ s with fg := Color.Rgb (ps.getD (i + 2) 0 % 256) (ps.getD (i + 3) 0 % 256) (ps.getD (i + 4) 0 % 256) }, i + 4)) ∧
       (ps.getD (i + 1) 0 = 5 → ¬ i + 2 < ps.length →
        apply_sgr_param s ps i = (s, i + 2)) ∧
       (ps.getD (i + 1) 0 = 2 → ¬ i + 4 < ps.length →
        apply_sgr_param s ps i = (s, i + 1)) ∧
       (¬ i + 1 < ps.length → apply_sgr_param s ps i = (s, i + 1)))) ∧
    (ps.getD i 0 = 48 →
      ((ps.getD (i + 1) 0 = 5 → i + 2 < ps.length →
        apply_sgr_param s ps i =
          ({ s with bg := Color.Indexed (ps.getD (i + 2) 0 % 256) }, i + 2)) ∧
       (ps.getD (i + 1) 0 = 2 → i + 4 < ps.length →
        apply_sgr_param s ps i = ({ s with bg := Color.Rgb (ps.getD (i + 2) 0 % 256) (ps.getD (i + 3) 0 % 256) (ps.getD (i + 4) 0 % 256) }, i + 4)) ∧
       (ps.getD (i + 1) 0 = 5 → ¬ i + 2 < ps.length →
        apply_sgr_param s ps i = (s, i + 2)) ∧
       (ps.getD (i + 1) 0 = 2 → ¬ i + 4 < ps.length →
        apply_sgr_param s ps i = (s, i + 1)) ∧
       (¬ i + 1 < ps.length → apply_sgr_param s ps i = (s, i + 1)))) := by
  have hlt1 : ∀ v : Nat, v ≠ 0 → ps.getD (i + 1) 0 = v → i + 1 < ps.length := by
    intro v hv hgd
    by_contra hge
    rw [List.getD_eq_default _ _ (by omega)] at hgd
    exact hv hgd.symm
  constructor
  · intro h38
    unfold apply_sgr_param
    rw [if_neg (by omega), h38]
    dsimp only
    refine ⟨?_, ?_, ?_, ?_, ?_⟩
    · intro h5 h2lt
      rw [if_pos (hlt1 5 (by omega) h5), h5]
      dsimp only
      rw [if_pos h2lt]
    · intro h2 h4lt
      rw [if_pos (hlt1 2 (by omega) h2), h2]
      dsimp only
      rw [if_pos (by omega)]
    · intro h5 h2ge
      rw [if_pos (hlt1 5 (by omega) h5), h5]
      dsimp only
      rw [if_neg h2ge]
    · intro h2 h4ge
      rw [if_pos (hlt1 2 (by omega) h2), h2]
      dsimp only
      rw [if_neg (by omega)]
    · intro h1ge
      rw [if_neg h1ge]
  · intro h48
    unfold apply_sgr_param
    rw [if_neg (by omega), h48]
    dsimp only
    refine ⟨?_, ?_, ?_, ?_, ?_⟩
    · intro h5 h2lt
      rw [if_pos (hlt1 5 (by omega) h5), h5]
      dsimp only
      rw [if_pos h2lt]
    · intro h2 h4lt
      rw [if_pos (hlt1 2 (by omega) h2), h2]
      dsimp only
      rw [if_pos (by omega)]
    · intro h5 h2ge
      rw [if_pos (hlt1 5 (by omega) h5), h5]
      dsimp only
      rw [if_neg h2ge]
    · intro h2 h4ge
      rw [if_pos (hlt1 2 (by omega) h2), h2]
      dsimp only
      rw [if_neg (by omega)]
    · intro h1ge
      rw [if_neg h1ge]

/-- Witness for C5: the indexed-color form at a concrete input. -/
theorem c5_extended_colors_witness :
    apply_sgr_param ParseState.deflt [38, 5, 7] 0 =
      ({ fg := Color.Indexed 7, bg := Color.Reset, bold := false, italic := false, underline := false, strikethrough := false, dim := false }, 2) := by
  have h := ((c5_extended_colors ParseState.deflt [38, 5, 7] 0
    (by decide)).1 (by decide)).1 (by decide) (by decide)
  exact h.trans (by decide)

/-- C5 (counterexample to the claim as stated): the truncated extended
sequence `38;2;31` is too short for an RGB color, yet it does change the
style of subsequent characters — the leftover `31` is interpreted as the
named-foreground code, so the following character is red, not default. -/
theorem c5_counterexample :
    parse_ansi ("\x1b[38;2;31mX") =
      Except.ok [StyledChar.with_style 'X'
        { CharStyle.default with fg := Color.Red }] ∧
    ({ CharStyle.default with fg := Color.Red }) ≠ CharStyle.default := by
  constructor
  · rfl
  · decide

/-- C6: the parser's style accumulator is shared across the whole
input: emitting a character (including an embedded newline, which is
just a character token) stamps it with a snapshot of the accumulator and
leaves the accumulator unchanged; only an SGR token rewrites it, and it
is reset exactly when the parameter list is empty (code 0 resets inside
the parameter loop).  On the spec's example, the character after the
embedded newline still has foreground red. -/
theorem c6_accumulator_persistence :
    (∀ (s : ParseState) (c : Char) (ts : List Tok),
      runToks s (Tok.chr c :: ts) =
        StyledChar.with_style c s.to_char_style :: runToks s ts) ∧
    (∀ (s : ParseState) (ps : List Nat) (ts : List Tok),
      runToks s (Tok.sgr ps :: ts) =
        runToks (if ps.isEmpty then ParseState.deflt else processParams s ps) ts) ∧
    (parse_ansi ("\\033[31mRed\\nLine\\033[0m") =
      Except.ok
        [StyledChar.with_style 'R' { CharStyle.default with fg := Color.Red },
         StyledChar.with_style 'e' { CharStyle.default with fg := Color.Red },
         StyledChar.with_style 'd' { CharStyle.default with fg := Color.Red },
         StyledChar.with_style '\n' { CharStyle.default with fg := Color.Red },
         StyledChar.with_style 'L' { CharStyle.default with fg := Color.Red },
         StyledChar.with_style 'i' { CharStyle.default with fg := Color.Red },
         StyledChar.with_style 'n' { CharStyle.default with fg := Color.Red },
         StyledChar.with_style 'e' { CharStyle.default with fg := Color.Red }]) :=
  ⟨fun _ _ _ => rfl, fun _ _ _ => rfl, rfl⟩

/-- Decimal digit character for a value below 10. -/
def digitChar (n : Nat) : Char := Char.ofNat (48 + n)

/-- Decimal rendering of a natural number (the `format!("{}")` of the
source), fuel-indexed; `n + 1` is always sufficient fuel. -/
def decimalReprF : Nat → Nat → List Char
  | 0, _ => []
  | fuel + 1, n =>
    if n < 10 then [digitChar n]
    else decimalReprF fuel (n / 10) ++ [digitChar (n % 10)]

/-- Decimal rendering of a natural number. -/
def natStr (n : Nat) : List Char := decimalReprF (n + 1) n

/-- `fg_ansi_code` from `src/colors.rs` (as a character sequence). -/
def fg_ansi_code : Color → List Char
  | Color.Black => ("30").data
  | Color.Red => ("31").data
  | Color.Green => ("32").data
  | Color.Yellow => ("33").data
  | Color.Blue => ("34").data
  | Color.Magenta => ("35").data
  | Color.Cyan => ("36").data
  | Color.White => ("37").data
  | Color.DarkGray => ("90").data
  | Color.LightRed => ("91").data
  | Color.LightGreen => ("92").data
  | Color.LightYellow => ("93").data
  | Color.LightBlue => ("94").data
  | Color.LightMagenta => ("95").data
  | Color.LightCyan => ("96").data
  | Color.Gray => ("97").data
  | Color.Reset => ("39").data
  | Color.Rgb r g b =>
      ("38;2;").data ++ natStr r ++ (";").data ++ natStr g ++ (";").data ++ natStr b
  | Color.Indexed i => ("38;5;").data ++ natStr i

/-- `bg_ansi_code` from `src/colors.rs`. -/
def bg_ansi_code : Color → List Char
  | Color.Black => ("40").data
  | Color.Red => ("41").data
  | Color.Green => ("42").data
  | Color.Yellow => ("43").data
  | Color.Blue => ("44").data
  | Color.Magenta => ("45").data
  | Color.Cyan => ("46").data
  | Color.White => ("47").data
  | Color.DarkGray => ("100").data
  | Color.LightRed => ("101").data
  | Color.LightGreen => ("102").data
  | Color.LightYellow => ("103").data
  | Color.LightBlue => ("104").data
  | Color.LightMagenta => ("105").data
  | Color.LightCyan => ("106").data
  | Color.Gray => ("107").data
  | Color.Reset => ("49").data
  | Color.Rgb r g b =>
      ("48;2;").data ++ natStr r ++ (";").data ++ natStr g ++ (";").data ++ natStr b
  | Color.Indexed i => ("48;5;").data ++ natStr i

/-- `bold_ansi_code` from `src/colors.rs`. -/
def bold_ansi_code (b : Bool) : Option (List Char) :=
  if b then some (("1").data) else none

/-- `dim_ansi_code` from `src/colors.rs`: one ANSI dim code for levels
1-3, nothing for level 0 (and any other value). -/
def dim_ansi_code (level : Nat) : Option (List Char) :=
  if 1 ≤ level ∧ level ≤ 3 then some (("2").data) else none

/-- `italic_ansi_code` from `src/colors.rs`. -/
def italic_ansi_code (b : Bool) : Option (List Char) :=
  if b then some (("3").data) else none

/-- `underline_ansi_code` from `src/colors.rs`. -/
def underline_ansi_code (b : Bool) : Option (List Char) :=
  if b then some (("4").data) else none

/-- `strikethrough_ansi_code` from `src/colors.rs`. -/
def strikethrough_ansi_code (b : Bool) : Option (List Char) :=
  if b then some (("9").data) else none

/-- The `new_codes` vector built for one character inside
`generate_echo_command` (`src/export.rs`): foreground always, background
unless it is the reset code `49`, then each decoration code if set, then
the dim code if the level is positive. -/
def charCodes (st : CharStyle) : List (List Char) :=
  fg_ansi_code st.fg ::
    ((if bg_ansi_code st.bg = ("49").data then [] else [bg_ansi_code st.bg]) ++
     (match bold_ansi_code st.bold with | some c => [c] | none => []) ++
     (match italic_ansi_code st.italic with | some c => [c] | none => []) ++
     (match underline_ansi_code st.underline with | some c => [c] | none => []) ++
     (match strikethrough_ansi_code st.strikethrough with | some c => [c] | none => []) ++
     (match dim_ansi_code st.dim_level with | some c => [c] | none => []))

/-- The escape sequence emitted on a style change:
`format!("\033[0;{}m", codes.join(";"))`. -/
def escSeq (codes : List (List Char)) : List Char :=
  ("\\033[0;").data ++ List.intercalate ((";").data) codes ++ ("m").data

/-- The character escaping of `generate_echo_command`: newline, double
quote, backslash, dollar, backtick and exclamation mark get a backslash
escape, every other character passes through. -/
def escapedChar (c : Char) : List Char :=
  if c = '\n' then ['\\', 'n']
  else if c = '"' then ['\\', '"']
  else if c = '\\' then ['\\', '\\']
  else if c = '$' then ['\\', '$']
  else if c = Char.ofNat 96 then ['\\', Char.ofNat 96]
  else if c = '!' then ['\\', '!']
  else [c]

/-- The per-character loop of `generate_echo_command`, threading
`current_codes` (the codes of the last emitted escape sequence): a new
escape sequence is pushed only when the fresh code vector differs. -/
def genBody : List StyledChar → List (List Char) → List Char
  | [], _ => []
  | c :: cs, cur =>
    let nc := charCodes c.style
    if nc ≠ cur then escSeq nc ++ escapedChar c.ch ++ genBody cs nc
    else escapedChar c.ch ++ genBody cs cur

/-- `generate_echo_command` from `src/export.rs`. -/
def generate_echo_command (text : List StyledChar) : String :=
  if text.isEmpty then "echo -e \"\""
  else String.mk (("echo -e \"").data ++ genBody text [] ++ ("\\033[0m\"").data)

/-- The encoder body as the specification words it: an escape sequence
is emitted exactly when the character's full parameter set differs from
the immediately preceding character's parameter set (the first argument
is the preceding character's codes, `[]` when there is none). -/
def specBody : List (List Char) → List StyledChar → List Char
  | _, [] => []
  | prev, c :: cs =>
    (if charCodes c.style ≠ prev then escSeq (charCodes c.style) else []) ++
      escapedChar c.ch ++ specBody (charCodes c.style) cs

lemma genBody_eq_specBody : ∀ (cs : List StyledChar) (cur : List (List Char)),
    genBody cs cur = specBody cur cs := by
  intro cs
  induction cs with
  | nil => intro cur; rfl
  | cons c cs ih =>
    intro cur
    by_cases hc : charCodes c.style = cur
    · rw [genBody, specBody]
      rw [if_neg (by simp [hc]), if_neg (by simp [hc]), ih]
      rw [hc, List.nil_append]
    · rw [genBody, specBody]
      rw [if_pos (by simp [hc]), if_pos (by simp [hc]), ih]

lemma charCodes_ne_nil (st : CharStyle) : charCodes st ≠ [] := by
  simp [charCodes]

/-- C7: `generate_echo_command` equals the wrapper around the
specification-side body `specBody`, which emits a full-restatement
escape sequence (`\033[0;<all codes>m`, never an incremental diff)
exactly at the characters whose full SGR parameter set differs from the
immediately preceding character's; consecutive characters with equal
parameter sets share one sequence. -/
theorem c7_minimal_escapes (text : List StyledChar) (h : text ≠ []) :
    (generate_echo_command text).data =
      ("echo -e \"").data ++ specBody [] text ++ ("\\033[0m\"").data := by
  unfold generate_echo_command
  rw [if_neg (by simpa using h)]
  rw [genBody_eq_specBody]

/-- Witness for C7 at a two-character document sharing one style. -/
theorem c7_minimal_escapes_witness :
    (generate_echo_command
      [StyledChar.with_style 'H' CharStyle.default,
       StyledChar.with_style 'i' CharStyle.default]).data =
      ("echo -e \"").data ++
        specBody []
          [StyledChar.with_style 'H' CharStyle.default,
           StyledChar.with_style 'i' CharStyle.default] ++
        ("\\033[0m\"").data :=
  c7_minimal_escapes _ (by simp)

/-- C10: for every non-empty document the output begins with an escape
sequence immediately after the wrapper (`echo -e "\033[0;…`), because
the foreground code is always the head of the per-character parameter
set (code `39` for the default foreground); and every escape sequence
the encoder can emit is a full restatement beginning with parameter 0. -/
theorem c10_always_escape (text : List StyledChar) (h : text ≠ []) :
    (∃ rest : List Char,
      (generate_echo_command text).data = ("echo -e \"\\033[0;").data ++ rest) ∧
    (∀ st : CharStyle, (charCodes st).head? = some (fg_ansi_code st.fg)) ∧
    fg_ansi_code Color.Reset = ("39").data ∧
    (∀ codes : List (List Char), ∃ tail : List Char,
      escSeq codes = ("\\033[0;").data ++ tail) := by
  refine ⟨?_, fun st => rfl, rfl, fun codes => ⟨_, rfl⟩⟩
  cases text with
  | nil => exact absurd rfl h
  | cons c cs =>
    unfold generate_echo_command
    rw [if_neg (by simp)]
    rw [genBody]
    rw [if_pos (by simp [charCodes_ne_nil])]
    refine ⟨List.intercalate ((";").data) (charCodes c.style) ++ ("m").data ++
      escapedChar c.ch ++ genBody cs (charCodes c.style) ++ ("\\033[0m\"").data, ?_⟩
    simp [escSeq, List.append_assoc]

/-- Witness for C10 at a one-character default-styled document. -/
theorem c10_always_escape_witness :
    ∃ rest : List Char,
      (generate_echo_command [StyledChar.with_style 'A' CharStyle.default]).data =
        ("echo -e \"\\033[0;").data ++ rest :=
  (c10_always_escape [StyledChar.with_style 'A' CharStyle.default] (by simp)).1

/-- `str::trim` of the source (leading and trailing whitespace removed;
delimiters compared here are all ASCII, so character positions coincide
with the source's byte positions). -/
def trimChars (l : List Char) : List Char :=
  ((l.dropWhile Char.isWhitespace).reverse.dropWhile Char.isWhitespace).reverse

/-- `str::rfind(char)`: index of the last occurrence. -/
def lastIndexOf : List Char → Char → Option Nat
  | [], _ => none
  | c :: cs, q =>
    match lastIndexOf cs q with
    | some i => some (i + 1)
    | none => if c = q then some 0 else none

/-- One iteration of the prefix loop in `strip_echo_wrapper`
(`src/import.rs`): if the trimmed input starts with the prefix and the
matching quote character occurs in the remainder, return the remainder
up to the last occurrence of the quote; otherwise nothing. -/
def tryPrefix (t pre : List Char) (q : Char) : Option (List Char) :=
  if pre.isPrefixOf t then
    match lastIndexOf (t.drop pre.length) q with
    | some i => some ((t.drop pre.length).take i)
    | none => none
  else none

/-- The single-quote character (ASCII 39). -/
def sqChar : Char := Char.ofNat 39

/-- The recognized shell-wrapper prefixes with their matching quote
characters, in the order the source tests them (the last two are the
bash ANSI-C quoting forms handled by the dedicated branch; all eight
prefixes are pairwise incomparable, so at most one can match). -/
def wrapperPrefixes : List (List Char × Char) :=
  [(("echo -e ").data ++ ['"'], '"'),
   (("echo -e ").data ++ [sqChar], sqChar),
   (("echo ").data ++ ['"'], '"'),
   (("echo ").data ++ [sqChar], sqChar),
   (("printf ").data ++ ['"'], '"'),
   (("printf ").data ++ [sqChar], sqChar),
   (("echo $").data ++ [sqChar], sqChar),
   (("echo -e $").data ++ [sqChar], sqChar)]

/-- First defined alternative. -/
def firstSome : List (Option (List Char)) → Option (List Char)
  | [] => none
  | some r :: _ => some r
  | none :: rest => firstSome rest

/-- `strip_echo_wrapper` from `src/import.rs`: try each recognized
wrapper prefix against the trimmed input; on the first prefix whose
remainder contains the matching quote, return the remainder up to the
last quote; otherwise return the original input unchanged. -/
def strip_echo_wrapper (input : String) : String :=
  match firstSome (wrapperPrefixes.map
      (fun pq => tryPrefix (trimChars input.data) pq.1 pq.2)) with
  | some r => String.mk r
  | none => input

/-- `is_ron_format` from `src/import.rs`. -/
def is_ron_format (input : String) : Bool :=
  (trimChars input.data).head? = some '(' ∨
    (("StyledDocument").data).isPrefixOf (trimChars input.data)

/-- The fallible part of `import_from_clipboard` (`src/import.rs`): the
clipboard content is a parameter (clipboard access is an external
collaborator), and the textual RON decoder of the external `ron` crate
is a parameter `ronDecode`; the source maps its result through the
`SerializableChar → StyledChar` conversions. -/
def import_result (ronDecode : String → Except String StyledDocument)
    (content : String) : Except String (List StyledChar × String) :=
  if is_ron_format content then
    (ronDecode content).map (fun doc => (import_ron doc, "RON"))
  else
    let stripped := strip_echo_wrapper content
    let fmt :=
      if stripped.length ≠ content.length then "echo cmd" else "ANSI"
    (parse_ansi stripped).map (fun cs => (cs, fmt))

/-- `import_from_clipboard` from `src/import.rs`: on success the parsed
characters replace the text, the cursor moves to the end and the
selection is cleared; on failure the `?` operator returns before any
mutation, leaving the application state untouched. -/
def import_from_clipboard (ronDecode : String → Except String StyledDocument)
    (content : String) (app : App) : App × Except String String :=
  match import_result ronDecode content with
  | Except.error e => (app, Except.error e)
  | Except.ok (chars, fmt) =>
    let a1 := { app with text := chars }
    let a2 := { a1 with cursor_pos := a1.text.length }
    (App.clear_selection a2,
     Except.ok (String.mk (("Imported ").data ++ natStr chars.length ++
       (" chars (").data ++ fmt.data ++ (")").data)))

/-- C8: import is transactional — for every clipboard content, every
behavior of the external RON decoder and every prior application state,
when the import entry point reports an error the application state
(text, cursor, selection, everything) is exactly the prior state. -/
theorem c8_import_transactional
    (ronDecode : String → Except String StyledDocument)
    (content : String) (app : App) (e : String)
    (h : (import_from_clipboard ronDecode content app).2 = Except.error e) :
    (import_from_clipboard ronDecode content app).1 = app := by
  cases hres : import_result ronDecode content with
  | error e2 => simp [import_from_clipboard, hres]
  | ok v =>
    obtain ⟨chars, fmt⟩ := v
    simp [import_from_clipboard, hres] at h

/-- Witness for C8: a malformed ANSI clipboard content (unterminated
escape sequence) leaves the initial state untouched. -/
theorem c8_import_transactional_witness :
    (import_from_clipboard (fun _ => Except.error ("x")) ("\x1b[31")
      App.init).1 = App.init :=
  c8_import_transactional _ _ _ "malformed escape sequence" (by rfl)


lemma tryPrefix_not_prefix {t pre : List Char} {q : Char}
    (h : pre.isPrefixOf t = false) : tryPrefix t pre q = none := by
  simp [tryPrefix, h]

lemma lastIndexOf_none : ∀ {l : List Char} {q : Char},
    lastIndexOf l q = none → q ∉ l := by
  intro l
  induction l with
  | nil => intro q _ hm; cases hm
  | cons c cs ih =>
    intro q h hm
    unfold lastIndexOf at h
    cases hL : lastIndexOf cs q with
    | some i => rw [hL] at h; cases h
    | none =>
      rw [hL] at h
      by_cases hc : c = q
      · rw [if_pos hc] at h; cases h
      · rcases List.mem_cons.mp hm with h1 | h1
        · exact hc h1.symm
        · exact ih hL h1

lemma lastIndexOf_spec : ∀ {l : List Char} {q : Char} {i : Nat},
    lastIndexOf l q = some i →
      l.get? i = some q ∧ ∀ j, l.get? j = some q → j ≤ i := by
  intro l
  induction l with
  | nil => intro q i h; cases h
  | cons c cs ih =>
    intro q i h
    unfold lastIndexOf at h
    cases hL : lastIndexOf cs q with
    | some i2 =>
      rw [hL] at h
      cases h
      obtain ⟨hget, hmax⟩ := ih hL
      refine ⟨hget, ?_⟩
      intro j hj
      cases j with
      | zero => omega
      | succ j2 => exact Nat.succ_le_succ (hmax j2 hj)
    | none =>
      rw [hL] at h
      by_cases hc : c = q
      · rw [if_pos hc] at h
        cases h
        refine ⟨by simp [hc], ?_⟩
        intro j hj
        cases j with
        | zero => exact le_rfl
        | succ j2 =>
          exfalso
          exact lastIndexOf_none hL (List.get?_mem hj)
      · rw [if_neg hc] at h
        cases h

/-- C9: `strip_echo_wrapper` is total; for an input whose trimmed form
starts with one of the eight recognized wrapper prefixes and whose
remainder contains the matching quote character, it returns exactly the
remainder up to the last occurrence of that quote; when no prefix
matches, it returns the original input unchanged. -/
theorem c9_strip_echo_wrapper (input : String) :
    ((∀ pq ∈ wrapperPrefixes,
        pq.1.isPrefixOf (trimChars input.data) = false) →
      strip_echo_wrapper input = input) ∧
    (∀ (pre : List Char) (q : Char), (pre, q) ∈ wrapperPrefixes →
      ∀ rest : List Char, trimChars input.data = pre ++ rest → q ∈ rest →
      ∃ i : Nat, rest.get? i = some q ∧ (∀ j, rest.get? j = some q → j ≤ i) ∧
        (strip_echo_wrapper input).data = rest.take i) := by
  constructor
  · intro h
    unfold strip_echo_wrapper
    have e1 : tryPrefix (trimChars input.data) (("echo -e ").data ++ ['"']) '"' = none :=
      tryPrefix_not_prefix (h ((("echo -e ").data ++ ['"']), '"') (by simp [wrapperPrefixes]))
    have e2 : tryPrefix (trimChars input.data) (("echo -e ").data ++ [sqChar]) sqChar = none :=
      tryPrefix_not_prefix (h ((("echo -e ").data ++ [sqChar]), sqChar) (by simp [wrapperPrefixes]))
    have e3 : tryPrefix (trimChars input.data) (("echo ").data ++ ['"']) '"' = none :=
      tryPrefix_not_prefix (h ((("echo ").data ++ ['"']), '"') (by simp [wrapperPrefixes]))
    have e4 : tryPrefix (trimChars input.data) (("echo ").data ++ [sqChar]) sqChar = none :=
      tryPrefix_not_prefix (h ((("echo ").data ++ [sqChar]), sqChar) (by simp [wrapperPrefixes]))
    have e5 : tryPrefix (trimChars input.data) (("printf ").data ++ ['"']) '"' = none :=
      tryPrefix_not_prefix (h ((("printf ").data ++ ['"']), '"') (by simp [wrapperPrefixes]))
    have e6 : tryPrefix (trimChars input.data) (("printf ").data ++ [sqChar]) sqChar = none :=
      tryPrefix_not_prefix (h ((("printf ").data ++ [sqChar]), sqChar) (by simp [wrapperPrefixes]))
    have e7 : tryPrefix (trimChars input.data) (("echo $").data ++ [sqChar]) sqChar = none :=
      tryPrefix_not_prefix (h ((("echo $").data ++ [sqChar]), sqChar) (by simp [wrapperPrefixes]))
    have e8 : tryPrefix (trimChars input.data) (("echo -e $").data ++ [sqChar]) sqChar = none :=
      tryPrefix_not_prefix (h ((("echo -e $").data ++ [sqChar]), sqChar) (by simp [wrapperPrefixes]))
    simp only [wrapperPrefixes, List.map_cons, List.map_nil, e1, e2, e3, e4, e5, e6, e7, e8, firstSome]
  · intro pre q hmem rest ht hq
    cases hL : lastIndexOf rest q with
    | none => exact absurd hq (lastIndexOf_none hL)
    | some i =>
      obtain ⟨hget, hmax⟩ := lastIndexOf_spec hL
      refine ⟨i, hget, hmax, ?_⟩
      simp only [wrapperPrefixes, List.mem_cons, List.not_mem_nil, or_false] at hmem
      unfold strip_echo_wrapper
      rw [ht]
      simp only [wrapperPrefixes, List.map_cons, List.map_nil]
      rcases hmem with h | h | h | h | h | h | h | h <;>
          (injection h with hp hq2; subst hp; subst hq2)
      · have ek : tryPrefix ((("echo -e ").data ++ ['"']) ++ rest) (("echo -e ").data ++ ['"']) '"' = some (rest.take i) := by
          unfold tryPrefix
          rw [if_pos (by simp [List.isPrefixOf_iff_prefix])]
          rw [List.drop_left, hL]
        rw [ek]
        rfl
      · have ek : tryPrefix ((("echo -e ").data ++ [sqChar]) ++ rest) (("echo -e ").data ++ [sqChar]) sqChar = some (rest.take i) := by
          unfold tryPrefix
          rw [if_pos (by simp [List.isPrefixOf_iff_prefix])]
          rw [List.drop_left, hL]
        rw [ek]
        rfl
      · have ek : tryPrefix ((("echo ").data ++ ['"']) ++ rest) (("echo ").data ++ ['"']) '"' = some (rest.take i) := by
          unfold tryPrefix
          rw [if_pos (by simp [List.isPrefixOf_iff_prefix])]
          rw [List.drop_left, hL]
        rw [ek]
        rfl
      · have ek : tryPrefix ((("echo ").data ++ [sqChar]) ++ rest) (("echo ").data ++ [sqChar]) sqChar = some (rest.take i) := by
          unfold tryPrefix
          rw [if_pos (by simp [List.isPrefixOf_iff_prefix])]
          rw [List.drop_left, hL]
        rw [ek]
        rfl
      · have ek : tryPrefix ((("printf ").data ++ ['"']) ++ rest) (("printf ").data ++ ['"']) '"' = some (rest.take i) := by
          unfold tryPrefix
          rw [if_pos (by simp [List.isPrefixOf_iff_prefix])]
          rw [List.drop_left, hL]
        rw [ek]
        rfl
      · have ek : tryPrefix ((("printf ").data ++ [sqChar]) ++ rest) (("printf ").data ++ [sqChar]) sqChar = some (rest.take i) := by
          unfold tryPrefix
          rw [if_pos (by simp [List.isPrefixOf_iff_prefix])]
          rw [List.drop_left, hL]
        rw [ek]
        rfl
      · have ek : tryPrefix ((("echo $").data ++ [sqChar]) ++ rest) (("echo $").data ++ [sqChar]) sqChar = some (rest.take i) := by
          unfold tryPrefix
          rw [if_pos (by simp [List.isPrefixOf_iff_prefix])]
          rw [List.drop_left, hL]
        rw [ek]
        rfl
      · have ek : tryPrefix ((("echo -e $").data ++ [sqChar]) ++ rest) (("echo -e $").data ++ [sqChar]) sqChar = some (rest.take i) := by
          unfold tryPrefix
          rw [if_pos (by simp [List.isPrefixOf_iff_prefix])]
          rw [List.drop_left, hL]
        rw [ek]
        rfl

/-- Witness for C9: stripping `echo -e "AB"` yields the payload up to
the last double quote. -/
theorem c9_strip_echo_wrapper_witness :
    ∃ i : Nat, (['A', 'B', '"'].get? i = some '"') ∧
      (∀ j, ['A', 'B', '"'].get? j = some '"' → j ≤ i) ∧
      (strip_echo_wrapper ("echo -e \"AB\"")).data = ['A', 'B', '"'].take i :=
  (c9_strip_echo_wrapper _).2 (("echo -e ").data ++ ['"']) '"'
    (by simp [wrapperPrefixes]) ['A', 'B', '"'] (by rfl) (by decide)

lemma decimalReprF_fuel : ∀ (n f : Nat), n < f → decimalReprF f n = natStr n := by
  intro n
  induction n using Nat.strong_induction_on with
  | _ n ih =>
    intro f h
    by_cases h10 : n < 10
    · cases f with
      | zero => omega
      | succ f => simp [decimalReprF, natStr, h10]
    · have hd : n / 10 < n := Nat.div_lt_self (by omega) (by omega)
      cases f with
      | zero => omega
      | succ f =>
        rw [decimalReprF, if_neg h10]
        rw [natStr, decimalReprF, if_neg h10]
        rw [ih (n / 10) hd f (by omega), ih (n / 10) hd n (by omega)]

lemma natStr_unfold (n : Nat) (h : ¬ n < 10) :
    natStr n = natStr (n / 10) ++ [digitChar (n % 10)] := by
  rw [natStr, decimalReprF, if_neg h,
    decimalReprF_fuel (n / 10) n (Nat.div_lt_self (by omega) (by omega))]

lemma digitChar_isDigit {d : Nat} (h : d < 10) :
    (digitChar d).isDigit = true := by
  interval_cases d <;> decide

lemma digitChar_toNat {d : Nat} (h : d < 10) :
    (digitChar d).toNat = 48 + d := by
  interval_cases d <;> decide

lemma natStr_all_digits : ∀ (n : Nat), ∀ c ∈ natStr n, c.isDigit = true := by
  intro n
  induction n using Nat.strong_induction_on with
  | _ n ih =>
    by_cases h10 : n < 10
    · intro c hc
      rw [natStr, decimalReprF, if_pos h10] at hc
      simp at hc
      rw [hc]
      exact digitChar_isDigit (by omega)
    · intro c hc
      rw [natStr_unfold n h10] at hc
      rcases List.mem_append.mp hc with h1 | h1
      · exact ih (n / 10) (Nat.div_lt_self (by omega) (by omega)) c h1
      · simp at h1
        rw [h1]
        exact digitChar_isDigit (Nat.mod_lt _ (by omega))

lemma natStr_ne_nil (n : Nat) : natStr n ≠ [] := by
  by_cases h10 : n < 10
  · rw [natStr, decimalReprF, if_pos h10]
    simp
  · rw [natStr_unfold n h10]
    simp

/-- Predicate: the next character (if any) is not a digit, so `readNum`
stops exactly here. -/
def headNotDigit : List Char → Prop
  | [] => True
  | c :: _ => c.isDigit = false

lemma readNum_digits : ∀ (ds : List Char) (rest : List Char) (acc : Nat),
    (∀ c ∈ ds, c.isDigit = true) → headNotDigit rest →
    readNum (ds ++ rest) acc =
      (ds.foldl (fun a c => a * 10 + (c.toNat - 48)) acc, rest) := by
  intro ds
  induction ds with
  | nil =>
    intro rest acc _ hrest
    cases rest with
    | nil => rfl
    | cons c cs =>
      simp only [List.nil_append, List.foldl_nil]
      unfold readNum
      simp only [headNotDigit] at hrest
      rw [if_neg (by simp [hrest])]
  | cons d ds ih =>
    intro rest acc hds hrest
    rw [List.cons_append, readNum]
    rw [if_pos (hds d (by simp))]
    simp only [List.foldl_cons]
    exact ih rest _ (fun c hc => hds c (by simp [hc])) hrest

lemma natStr_foldl : ∀ (n : Nat) (acc : Nat),
    (natStr n).foldl (fun a c => a * 10 + (c.toNat - 48)) acc =
      acc * 10 ^ (natStr n).length + n := by
  intro n
  induction n using Nat.strong_induction_on with
  | _ n ih =>
    intro acc
    by_cases h10 : n < 10
    · rw [natStr, decimalReprF, if_pos h10]
      simp [digitChar_toNat h10]
    · rw [natStr_unfold n h10]
      rw [List.foldl_append]
      rw [ih (n / 10) (Nat.div_lt_self (by omega) (by omega)) acc]
      simp only [List.foldl_cons, List.foldl_nil, List.length_append,
        List.length_cons, List.length_nil]
      rw [digitChar_toNat (Nat.mod_lt _ (by omega))]
      have : acc * 10 ^ ((natStr (n / 10)).length + (0 + 1)) =
          acc * 10 ^ (natStr (n / 10)).length * 10 := by ring
      rw [this]
      omega

lemma readNum_natStr (n : Nat) (rest : List Char) (h : headNotDigit rest) :
    readNum (natStr n ++ rest) 0 = (n, rest) := by
  rw [readNum_digits _ _ _ (natStr_all_digits n) h, natStr_foldl]
  simp

/-- Decimal rendering of a `;`-separated parameter list. -/
def paramChars : List Nat → List Char
  | [] => []
  | [n] => natStr n
  | n :: ns => natStr n ++ ';' :: paramChars ns

lemma paramChars_cons {ns : List Nat} (n : Nat) (h : ns ≠ []) :
    paramChars (n :: ns) = natStr n ++ ';' :: paramChars ns := by
  cases ns with
  | nil => exact absurd rfl h
  | cons m ms => rfl

lemma length_le_paramChars : ∀ ns : List Nat, ns.length ≤ (paramChars ns).length := by
  intro ns
  induction ns with
  | nil => simp [paramChars]
  | cons n ms ih =>
    cases ms with
    | nil =>
      have := natStr_ne_nil n
      simp [paramChars]
      cases hs : natStr n with
      | nil => exact absurd hs this
      | cons a b => simp
    | cons m ms2 =>
      rw [paramChars_cons n (by simp)]
      have := natStr_ne_nil n
      have hpos : 0 < (natStr n).length := by
        cases hs : natStr n with
        | nil => exact absurd hs this
        | cons a b => simp
      simp only [List.length_cons, List.length_append] at ih ⊢
      omega

lemma parseNumListF_correct : ∀ (ns : List Nat) (rest : List Char) (fuel : Nat),
    ns ≠ [] → ns.length ≤ fuel →
    parseNumListF fuel (paramChars ns ++ 'm' :: rest) = some (ns, rest) := by
  intro ns
  induction ns with
  | nil => intro rest fuel h _; exact absurd rfl h
  | cons n ms ih =>
    intro rest fuel _ hfuel
    cases fuel with
    | zero => simp at hfuel
    | succ fuel =>
      obtain ⟨c, cs', hns⟩ := List.exists_cons_of_ne_nil (natStr_ne_nil n)
      have hcdig : c.isDigit = true :=
        natStr_all_digits n c (by rw [hns]; simp)
      cases ms with
      | nil =>
        have hsplit : paramChars [n] ++ 'm' :: rest = c :: (cs' ++ 'm' :: rest) := by
          simp [paramChars, hns]
        rw [hsplit, parseNumListF]
        rw [if_pos hcdig]
        have hread : readNum (c :: (cs' ++ 'm' :: rest)) 0 = (n, 'm' :: rest) := by
          rw [show c :: (cs' ++ 'm' :: rest) = natStr n ++ 'm' :: rest by simp [hns]]
          exact readNum_natStr n _ (by simp [headNotDigit])
        simp only [hread]
      | cons m ms2 =>
        have hsplit : paramChars (n :: m :: ms2) ++ 'm' :: rest =
            c :: (cs' ++ ';' :: (paramChars (m :: ms2) ++ 'm' :: rest)) := by
          rw [paramChars_cons n (by simp), hns]
          simp
        rw [hsplit, parseNumListF]
        rw [if_pos hcdig]
        have hread : readNum (c :: (cs' ++ ';' :: (paramChars (m :: ms2) ++ 'm' :: rest))) 0 =
            (n, ';' :: (paramChars (m :: ms2) ++ 'm' :: rest)) := by
          rw [show c :: (cs' ++ ';' :: (paramChars (m :: ms2) ++ 'm' :: rest)) =
            natStr n ++ ';' :: (paramChars (m :: ms2) ++ 'm' :: rest) by simp [hns]]
          exact readNum_natStr n _ (by simp [headNotDigit])
        simp only [hread]
        rw [ih rest fuel (by simp) (by simp at hfuel ⊢; omega)]

lemma parseNumList_correct (ns : List Nat) (rest : List Char) (h : ns ≠ []) :
    parseNumList (paramChars ns ++ 'm' :: rest) = some (ns, rest) := by
  unfold parseNumList
  refine parseNumListF_correct ns rest _ h ?_
  have h1 := length_le_paramChars ns
  simp only [List.length_append, List.length_cons]
  omega

lemma parseSgrBody_params (ns : List Nat) (rest : List Char) (h : ns ≠ []) :
    parseSgrBody (paramChars ns ++ 'm' :: rest) = some (ns, rest) := by
  obtain ⟨n, ms, hns⟩ := List.exists_cons_of_ne_nil h
  subst hns
  obtain ⟨c, cs', hcs⟩ := List.exists_cons_of_ne_nil (natStr_ne_nil n)
  have hcdig : c.isDigit = true := natStr_all_digits n c (by rw [hcs]; simp)
  have hcm : c ≠ 'm' := by
    intro he
    rw [he] at hcdig
    simp at hcdig
  have hhead : ∃ tl, paramChars (n :: ms) ++ 'm' :: rest = c :: tl := by
    cases ms with
    | nil => exact ⟨cs' ++ 'm' :: rest, by simp [paramChars, hcs]⟩
    | cons m ms2 =>
      refine ⟨cs' ++ ';' :: (paramChars (m :: ms2) ++ 'm' :: rest), ?_⟩
      rw [paramChars_cons n (by simp), hcs]
      simp
  obtain ⟨tl, htl⟩ := hhead
  rw [htl]
  have : parseSgrBody (c :: tl) = parseNumList (c :: tl) := by
    unfold parseSgrBody
    split
    · rename_i heq
      injection heq with h1 h2
      exact absurd h1 hcm
    · rfl
  rw [this, ← htl, parseNumList_correct _ _ (by simp)]

lemma readNum_length : ∀ (l : List Char) (acc : Nat),
    (readNum l acc).2.length ≤ l.length := by
  intro l
  induction l with
  | nil => intro acc; simp [readNum]
  | cons c cs ih =>
    intro acc
    rw [readNum]
    by_cases hd : c.isDigit = true
    · rw [if_pos hd]
      exact le_trans (ih _) (by simp)
    · rw [if_neg hd]

lemma parseNumListF_length : ∀ (fuel : Nat) (l : List Char) (ns : List Nat)
    (rest : List Char), parseNumListF fuel l = some (ns, rest) →
    rest.length < l.length := by
  intro fuel
  induction fuel with
  | zero => intro l ns rest h; cases h
  | succ fuel ih =>
    intro l ns rest h
    unfold parseNumListF at h
    cases l with
    | nil => cases h
    | cons c cs =>
      simp only at h
      split at h
      · split at h
        · rename_i rest2 heq
          cases h
          have hlen := readNum_length (c :: cs) 0
          rw [heq] at hlen
          simp only [List.length_cons] at hlen ⊢
          omega
        · rename_i rest2 heq
          split at h
          · rename_i ns2 rest3 hrec
            cases h
            have h1 := ih rest2 _ _ hrec
            have hlen := readNum_length (c :: cs) 0
            rw [heq] at hlen
            simp only [List.length_cons] at hlen ⊢
            omega
          · cases h
        · cases h
      · cases h

lemma parseSgrBody_length {l : List Char} {ns : List Nat} {rest : List Char}
    (h : parseSgrBody l = some (ns, rest)) : rest.length < l.length := by
  unfold parseSgrBody at h
  split at h
  · cases h
    simp
  · exact parseNumListF_length _ _ _ _ h

lemma tokStep_length : ∀ (l : List Char) (t : Tok) (rest : List Char),
    tokStep l = Except.ok (some (t, rest)) → rest.length < l.length := by
  intro l t rest h
  unfold tokStep at h
  split at h
  · cases h
  · split at h
    · split at h
      · split at h
        · rename_i ps rest2 heq
          cases h
          have hb := parseSgrBody_length heq
          simp only [List.length_cons] at hb ⊢
          omega
        · cases h
      · cases h
    · split at h
      · split at h
        · split at h
          · rename_i ps rest2 heq
            cases h
            have hb := parseSgrBody_length heq
            simp only [List.length_cons] at hb ⊢
            omega
          · cases h
        · split at h
          · rename_i ps rest2 heq
            cases h
            have hb := parseSgrBody_length heq
            simp only [List.length_cons] at hb ⊢
            omega
          · cases h
        · split at h
          · rename_i ps rest2 heq
            cases h
            have hb := parseSgrBody_length heq
            simp only [List.length_cons] at hb ⊢
            omega
          · cases h
        · cases h
          simp
          omega
        · cases h
          simp
          omega
        · cases h
          simp
          omega
        · cases h
          simp
      · cases h
        simp

lemma tokenizeF_nil (f : Nat) : tokenizeF f [] = Except.ok [] := by
  cases f <;> rfl

lemma tokenizeF_fuel : ∀ (n : Nat) (l : List Char), l.length ≤ n →
    ∀ (f1 f2 : Nat), l.length ≤ f1 → l.length ≤ f2 →
    tokenizeF f1 l = tokenizeF f2 l := by
  intro n
  induction n using Nat.strong_induction_on with
  | _ n ih =>
    intro l hl f1 f2 h1 h2
    cases l with
    | nil => rw [tokenizeF_nil, tokenizeF_nil]
    | cons c cs =>
      cases f1 with
      | zero => simp at h1
      | succ f1 =>
        cases f2 with
        | zero => simp at h2
        | succ f2 =>
          rw [tokenizeF, tokenizeF]
          cases hts : tokStep (c :: cs) with
          | error e => rfl
          | ok o =>
            cases o with
            | none => rfl
            | some tr =>
              obtain ⟨t, rest⟩ := tr
              dsimp only
              have hlt := tokStep_length _ _ _ hts
              simp only [List.length_cons] at hlt h1 h2 hl
              have e1 : tokenizeF f1 rest = tokenizeF rest.length rest :=
                ih rest.length (by omega) rest le_rfl f1 rest.length
                  (by omega) le_rfl
              have e2 : tokenizeF f2 rest = tokenizeF rest.length rest :=
                ih rest.length (by omega) rest le_rfl f2 rest.length
                  (by omega) le_rfl
              rw [e1, e2]

lemma tokenize_step {l rest : List Char} {t : Tok}
    (h : tokStep l = Except.ok (some (t, rest))) :
    tokenize l = (tokenize rest).map (fun ts => t :: ts) := by
  cases l with
  | nil => cases h
  | cons c cs =>
    unfold tokenize
    rw [show (c :: cs).length = cs.length + 1 from rfl, tokenizeF, h]
    have hlt := tokStep_length _ _ _ h
    simp only [List.length_cons] at hlt
    dsimp only
    rw [tokenizeF_fuel cs.length rest (by omega) cs.length rest.length
      (by omega) le_rfl]

lemma tokenize_step_error {l : List Char} {e : String}
    (h : tokStep l = Except.error e) : tokenize l = Except.error e := by
  cases l with
  | nil => cases h
  | cons c cs =>
    unfold tokenize
    rw [show (c :: cs).length = cs.length + 1 from rfl, tokenizeF, h]

/-- The numeric parameters of `fg_ansi_code`. -/
def fgNats : Color → List Nat
  | Color.Black => [30]
  | Color.Red => [31]
  | Color.Green => [32]
  | Color.Yellow => [33]
  | Color.Blue => [34]
  | Color.Magenta => [35]
  | Color.Cyan => [36]
  | Color.White => [37]
  | Color.DarkGray => [90]
  | Color.LightRed => [91]
  | Color.LightGreen => [92]
  | Color.LightYellow => [93]
  | Color.LightBlue => [94]
  | Color.LightMagenta => [95]
  | Color.LightCyan => [96]
  | Color.Gray => [97]
  | Color.Reset => [39]
  | Color.Rgb r g b => [38, 2, r, g, b]
  | Color.Indexed i => [38, 5, i]

/-- The numeric parameters of `bg_ansi_code`. -/
def bgNats : Color → List Nat
  | Color.Black => [40]
  | Color.Red => [41]
  | Color.Green => [42]
  | Color.Yellow => [43]
  | Color.Blue => [44]
  | Color.Magenta => [45]
  | Color.Cyan => [46]
  | Color.White => [47]
  | Color.DarkGray => [100]
  | Color.LightRed => [101]
  | Color.LightGreen => [102]
  | Color.LightYellow => [103]
  | Color.LightBlue => [104]
  | Color.LightMagenta => [105]
  | Color.LightCyan => [106]
  | Color.Gray => [107]
  | Color.Reset => [49]
  | Color.Rgb r g b => [48, 2, r, g, b]
  | Color.Indexed i => [48, 5, i]

/-- The parameter segments of one character's code vector. -/
def codeSegs (st : CharStyle) : List (List Nat) :=
  [fgNats st.fg] ++
    (if bg_ansi_code st.bg = ("49").data then [] else [bgNats st.bg]) ++
    (if st.bold then [[1]] else []) ++
    (if st.italic then [[3]] else []) ++
    (if st.underline then [[4]] else []) ++
    (if st.strikethrough then [[9]] else []) ++
    (if 1 ≤ st.dim_level ∧ st.dim_level ≤ 3 then [[2]] else [])

/-- The flattened numeric parameter list of one character's codes. -/
def codeNats (st : CharStyle) : List Nat := (codeSegs st).join

lemma fg_str (c : Color) : fg_ansi_code c = paramChars (fgNats c) := by
  cases c <;> simp [fg_ansi_code, fgNats, paramChars] <;> rfl

lemma bg_str (c : Color) : bg_ansi_code c = paramChars (bgNats c) := by
  cases c <;> simp [bg_ansi_code, bgNats, paramChars] <;> rfl

lemma fgNats_ne_nil (c : Color) : fgNats c ≠ [] := by
  cases c <;> simp [fgNats]

lemma bgNats_ne_nil (c : Color) : bgNats c ≠ [] := by
  cases c <;> simp [bgNats]

lemma paramChars_append : ∀ (as bs : List Nat), as ≠ [] → bs ≠ [] →
    paramChars (as ++ bs) = paramChars as ++ ';' :: paramChars bs := by
  intro as
  induction as with
  | nil => intro bs h _; exact absurd rfl h
  | cons a as ih =>
    intro bs _ hbs
    cases as with
    | nil =>
      cases bs with
      | nil => exact absurd rfl hbs
      | cons b bs2 =>
        rw [show [a] ++ b :: bs2 = a :: (b :: bs2) from rfl]
        rw [@paramChars_cons (b :: bs2) a (by simp)]
        simp [paramChars]
    | cons a2 as2 =>
      rw [show (a :: a2 :: as2) ++ bs = a :: ((a2 :: as2) ++ bs) from rfl]
      rw [paramChars_cons a (by simp), paramChars_cons a (by simp)]
      rw [ih bs (by simp) hbs]
      simp

lemma intercalate_cons2 (sep x y : List Char) (zs : List (List Char)) :
    List.intercalate sep (x :: y :: zs) =
      x ++ sep ++ List.intercalate sep (y :: zs) := by
  simp [List.intercalate, List.intersperse]

lemma intercalate_singleton (sep x : List Char) :
    List.intercalate sep [x] = x := by
  simp [List.intercalate, List.intersperse]

lemma intercalate_map_paramChars : ∀ (segs : List (List Nat)),
    (∀ s ∈ segs, s ≠ []) → segs ≠ [] →
    List.intercalate ((";").data) (segs.map paramChars) =
      paramChars segs.join := by
  intro segs
  induction segs with
  | nil => intro _ h; exact absurd rfl h
  | cons s ss ih =>
    intro hne _
    cases ss with
    | nil =>
      simp only [List.map_cons, List.map_nil]
      rw [intercalate_singleton]
      simp [paramChars]
    | cons s2 ss2 =>
      simp only [List.map_cons]
      rw [intercalate_cons2]
      have hrec := ih (fun x hx => hne x (by simp [hx])) (by simp)
      simp only [List.map_cons] at hrec
      rw [hrec]
      have hjoin : (s2 :: ss2).join ≠ [] := by
        have hs2 : s2 ≠ [] := hne s2 (by simp)
        cases hs : s2 with
        | nil => exact absurd hs hs2
        | cons a b => simp [hs]
      rw [show (s :: s2 :: ss2).join = s ++ (s2 :: ss2).join from rfl]
      rw [paramChars_append s ((s2 :: ss2).join) (hne s (by simp)) hjoin]
      simp

/-- Colors in the image of the ANSI parser: numeric components are
reduced modulo 256 by the `as u8` casts in `apply_sgr_param`. -/
def colorWFb : Color → Bool
  | Color.Rgb r g b => decide (r < 256) && decide (g < 256) && decide (b < 256)
  | Color.Indexed i => decide (i < 256)
  | _ => true

/-- Parse states whose colors are in the parser's image. -/
def StateWF (s : ParseState) : Prop :=
  colorWFb s.fg = true ∧ colorWFb s.bg = true

/-- Character styles in the image of the ANSI parser: image colors and a
dim level of at most 1 (`to_char_style` yields only 0 or 1). -/
def StyleWF (st : CharStyle) : Prop :=
  colorWFb st.fg = true ∧ colorWFb st.bg = true ∧ st.dim_level ≤ 1

lemma sgrRun_WF : ∀ (s : ParseState) (ps : List Nat),
    StateWF s → StateWF (sgrRun s ps) := by
  intro s ps
  induction s, ps using sgrRun.induct <;> intro h <;>
    first
      | exact h
      | (rename_i ih; exact ih h)
      | (rename_i ih; exact ih ⟨rfl, rfl⟩)
      | (rename_i ih; exact ih ⟨rfl, h.2⟩)
      | (rename_i ih; exact ih ⟨h.1, rfl⟩)
      | (rename_i ih; refine ih ⟨?_, h.2⟩; simp only [colorWFb,
          Bool.and_eq_true, decide_eq_true_eq]; omega)
      | (rename_i ih; refine ih ⟨h.1, ?_⟩; simp only [colorWFb,
          Bool.and_eq_true, decide_eq_true_eq]; omega)
      | (rename_i s0 hd rr hx5 hx2 ih
         by_cases h5 : hd = 5
         · subst h5
           cases rr with
           | nil => exact h
           | cons a rr2 => exact (hx5 a rr2 rfl rfl).elim
         · by_cases h2 : hd = 2
           · subst h2
             cases rr with
             | nil => exact h
             | cons a rr2 =>
               cases rr2 with
               | nil => exact ih h
               | cons b rr3 =>
                 cases rr3 with
                 | nil => exact ih h
                 | cons cc rr4 => exact (hx2 a b cc rr4 rfl rfl).elim
           · rw [sgrRun_38_skip s0 hd rr h5 h2]
             exact ih h)
      | (rename_i s0 hd rr hx5 hx2 ih
         by_cases h5 : hd = 5
         · subst h5
           cases rr with
           | nil => exact h
           | cons a rr2 => exact (hx5 a rr2 rfl rfl).elim
         · by_cases h2 : hd = 2
           · subst h2
             cases rr with
             | nil => exact h
             | cons a rr2 =>
               cases rr2 with
               | nil => exact ih h
               | cons b rr3 =>
                 cases rr3 with
                 | nil => exact ih h
                 | cons cc rr4 => exact (hx2 a b cc rr4 rfl rfl).elim
           · rw [sgrRun_48_skip s0 hd rr h5 h2]
             exact ih h)
      | (rename_i s0 p rest a0 a1 a2 a3 a4 a5 a6 a7 a8 a9 a10 a11 a12 a13 a14 a15 a16 a17 a18 a19 a20 a21 a22 a23 a24 a25 a26 a27 a28 a29 a30 a31 a32 a33 a34 a35 a36 a37 a38 a39 a40 a41 a42 a43 a44 a45 ih
         have hm : p ∉ simpleCodes := by
           simp only [simpleCodes, List.mem_cons, List.not_mem_nil, or_false,
             not_or]
           and_intros <;> assumption
         rw [sgrRun_other s0 p rest hm a18 a28]
         exact ih h)

lemma to_char_style_WF (s : ParseState) (h : StateWF s) :
    StyleWF s.to_char_style := by
  refine ⟨h.1, h.2, ?_⟩
  show (if s.dim then 1 else 0) ≤ 1
  split <;> omega

lemma runToks_mem : ∀ (ts : List Tok) (s : ParseState), StateWF s →
    ∀ x ∈ runToks s ts, StyleWF x.style ∧ Tok.chr x.ch ∈ ts := by
  intro ts
  induction ts with
  | nil => intro s _ x hx; cases hx
  | cons t ts ih =>
    intro s hs x hx
    cases t with
    | chr c =>
      simp only [runToks] at hx
      rcases List.mem_cons.mp hx with h1 | h1
      · subst h1
        refine ⟨to_char_style_WF s hs, ?_⟩
        simp [StyledChar.with_style]
      · obtain ⟨hw, hm⟩ := ih s hs x h1
        exact ⟨hw, List.mem_cons_of_mem _ hm⟩
    | sgr ps =>
      simp only [runToks] at hx
      have hs2 : StateWF
          (if ps.isEmpty then ParseState.deflt else processParams s ps) := by
        by_cases hemp : ps.isEmpty
        · rw [if_pos hemp]; exact ⟨rfl, rfl⟩
        · rw [if_neg hemp, processParams_eq_sgrRun]
          exact sgrRun_WF s ps hs
      obtain ⟨hw, hm⟩ := ih _ hs2 x hx
      exact ⟨hw, List.mem_cons_of_mem _ hm⟩

lemma tokStep_chr_ne_esc (l : List Char) (c : Char) (rest : List Char)
    (h : tokStep l = Except.ok (some (Tok.chr c, rest))) : c ≠ '\x1b' := by
  intro hc
  subst hc
  cases l with
  | nil => cases h
  | cons a as =>
    simp only [tokStep] at h
    by_cases ha : a = '\x1b'
    · rw [if_pos ha] at h
      split at h
      · split at h <;> simp_all
      · simp_all
    · rw [if_neg ha] at h
      by_cases hb : a = '\\'
      · rw [if_pos hb] at h
        split at h <;> (try split at h) <;> simp_all
      · rw [if_neg hb] at h
        simp_all

lemma tokenizeF_chr_ne_esc : ∀ (fuel : Nat) (l : List Char) (ts : List Tok),
    tokenizeF fuel l = Except.ok ts → ∀ c, Tok.chr c ∈ ts → c ≠ '\x1b' := by
  intro fuel
  induction fuel with
  | zero =>
    intro l ts h c hc
    cases l with
    | nil => cases h; cases hc
    | cons a as => cases h
  | succ fuel ih =>
    intro l ts h c hc
    rw [tokenizeF] at h
    cases hts : tokStep l with
    | error e => rw [hts] at h; cases h
    | ok o =>
      rw [hts] at h
      cases o with
      | none => cases h; cases hc
      | some tr =>
        obtain ⟨t, rest⟩ := tr
        dsimp only at h
        cases hrec : tokenizeF fuel rest with
        | error e => rw [hrec] at h; cases h
        | ok ts2 =>
          rw [hrec] at h
          simp only [Except.map] at h
          cases h
          rcases List.mem_cons.mp hc with h1 | h1
          · rw [← h1] at hts
            exact tokStep_chr_ne_esc l c rest hts
          · exact ih rest ts2 hrec c h1

lemma parse_ansi_image (input : String) (out : List StyledChar)
    (h : parse_ansi input = Except.ok out) :
    ∀ x ∈ out, StyleWF x.style ∧ x.ch ≠ '\x1b' := by
  intro x hx
  unfold parse_ansi at h
  cases htok : tokenize input.data with
  | error e => rw [htok] at h; cases h
  | ok ts =>
    rw [htok] at h
    simp only [Except.map] at h
    cases h
    obtain ⟨hw, hm⟩ := runToks_mem ts ParseState.deflt ⟨rfl, rfl⟩ x hx
    exact ⟨hw, tokenizeF_chr_ne_esc input.data.length input.data ts htok x.ch hm⟩

lemma sgrRun_boldCode (s : ParseState) (rest : List Nat) :
    sgrRun s (1 :: rest) = sgrRun { s with bold := true } rest := rfl

lemma sgrRun_dimCode (s : ParseState) (rest : List Nat) :
    sgrRun s (2 :: rest) = sgrRun { s with dim := true } rest := rfl

lemma sgrRun_italicCode (s : ParseState) (rest : List Nat) :
    sgrRun s (3 :: rest) = sgrRun { s with italic := true } rest := rfl

lemma sgrRun_underlineCode (s : ParseState) (rest : List Nat) :
    sgrRun s (4 :: rest) = sgrRun { s with underline := true } rest := rfl

lemma sgrRun_strikeCode (s : ParseState) (rest : List Nat) :
    sgrRun s (9 :: rest) = sgrRun { s with strikethrough := true } rest := rfl

lemma sgrRun_fgSeg (s : ParseState) (c : Color) (rest : List Nat)
    (h : colorWFb c = true) :
    sgrRun s (fgNats c ++ rest) = sgrRun { s with fg := c } rest := by
  cases c <;>
    first
      | rfl
      | (simp only [colorWFb, Bool.and_eq_true, decide_eq_true_eq] at h
         rename_i r g b
         rw [show fgNats (Color.Rgb r g b) ++ rest =
           38 :: 2 :: r :: g :: b :: rest from rfl]
         rw [show sgrRun s (38 :: 2 :: r :: g :: b :: rest) =
           sgrRun { s with fg := Color.Rgb (r % 256) (g % 256) (b % 256) } rest
           from rfl]
         rw [Nat.mod_eq_of_lt h.1.1, Nat.mod_eq_of_lt h.1.2,
           Nat.mod_eq_of_lt h.2])
      | (simp only [colorWFb, decide_eq_true_eq] at h
         rename_i i
         rw [show fgNats (Color.Indexed i) ++ rest = 38 :: 5 :: i :: rest
           from rfl]
         rw [show sgrRun s (38 :: 5 :: i :: rest) =
           sgrRun { s with fg := Color.Indexed (i % 256) } rest from rfl]
         rw [Nat.mod_eq_of_lt h])

lemma sgrRun_bgSeg (s : ParseState) (c : Color) (rest : List Nat)
    (h : colorWFb c = true) :
    sgrRun s (bgNats c ++ rest) = sgrRun { s with bg := c } rest := by
  cases c <;>
    first
      | rfl
      | (simp only [colorWFb, Bool.and_eq_true, decide_eq_true_eq] at h
         rename_i r g b
         rw [show bgNats (Color.Rgb r g b) ++ rest =
           48 :: 2 :: r :: g :: b :: rest from rfl]
         rw [show sgrRun s (48 :: 2 :: r :: g :: b :: rest) =
           sgrRun { s with bg := Color.Rgb (r % 256) (g % 256) (b % 256) } rest
           from rfl]
         rw [Nat.mod_eq_of_lt h.1.1, Nat.mod_eq_of_lt h.1.2,
           Nat.mod_eq_of_lt h.2])
      | (simp only [colorWFb, decide_eq_true_eq] at h
         rename_i i
         rw [show bgNats (Color.Indexed i) ++ rest = 48 :: 5 :: i :: rest
           from rfl]
         rw [show sgrRun s (48 :: 5 :: i :: rest) =
           sgrRun { s with bg := Color.Indexed (i % 256) } rest from rfl]
         rw [Nat.mod_eq_of_lt h])

lemma bg49 : ∀ c : Color, bg_ansi_code c = ("49").data → c = Color.Reset := by
  intro c
  cases c <;> intro h <;>
    first
      | rfl
      | exact absurd h (by decide)
      | (simp [bg_ansi_code] at h)
lemma codeNats_join (st : CharStyle) :
    codeNats st =
      fgNats st.fg ++
        ((if bg_ansi_code st.bg = ("49").data then [] else bgNats st.bg) ++
         ((if st.bold then [1] else []) ++
          ((if st.italic then [3] else []) ++
           ((if st.underline then [4] else []) ++
            ((if st.strikethrough then [9] else []) ++
             (if 1 ≤ st.dim_level ∧ st.dim_level ≤ 3 then [2] else [])))))) := by
  obtain ⟨f, b, bo, it, un, sk, dl⟩ := st
  unfold codeNats codeSegs
  by_cases h1 : bg_ansi_code b = ("49").data <;>
  cases bo <;> cases it <;> cases un <;> cases sk <;>
  by_cases h2 : 1 ≤ dl ∧ dl ≤ 3 <;>
  simp [h1, h2]

lemma codeNats_run (st : CharStyle) (hfg : colorWFb st.fg = true)
    (hbg : colorWFb st.bg = true) (rest : List Nat) :
    sgrRun ParseState.deflt (codeNats st ++ rest) =
      sgrRun { fg := st.fg, bg := st.bg, bold := st.bold, italic := st.italic,
               underline := st.underline, strikethrough := st.strikethrough,
               dim := decide (1 ≤ st.dim_level ∧ st.dim_level ≤ 3) }
        rest := by
  obtain ⟨f, b, bo, it, un, sk, dl⟩ := st
  simp only at hfg hbg ⊢
  rw [codeNats_join]
  simp only
  simp only [List.append_assoc]
  rw [sgrRun_fgSeg _ _ _ hfg]
  by_cases h1 : bg_ansi_code b = ("49").data
  · have hbr : b = Color.Reset := bg49 b h1
    subst hbr
    rw [if_pos h1, List.nil_append]
    by_cases h2 : 1 ≤ dl ∧ dl ≤ 3 <;>
    cases bo <;> cases it <;> cases un <;> cases sk <;>
    simp [h2, ParseState.deflt, sgrRun_boldCode, sgrRun_italicCode,
      sgrRun_underlineCode, sgrRun_strikeCode, sgrRun_dimCode]
  · rw [if_neg h1, sgrRun_bgSeg _ _ _ hbg]
    by_cases h2 : 1 ≤ dl ∧ dl ≤ 3 <;>
    cases bo <;> cases it <;> cases un <;> cases sk <;>
    simp [h2, ParseState.deflt, sgrRun_boldCode, sgrRun_italicCode,
      sgrRun_underlineCode, sgrRun_strikeCode, sgrRun_dimCode]

lemma codes_decode (st : CharStyle) (h : StyleWF st) :
    (sgrRun ParseState.deflt (0 :: codeNats st)).to_char_style = st := by
  obtain ⟨hfg, hbg, hdim⟩ := h
  obtain ⟨f, b, bo, it, un, sk, dl⟩ := st
  rw [show sgrRun ParseState.deflt (0 :: codeNats ⟨f, b, bo, it, un, sk, dl⟩) =
    sgrRun ParseState.deflt (codeNats ⟨f, b, bo, it, un, sk, dl⟩) from rfl]
  have hrun := codeNats_run ⟨f, b, bo, it, un, sk, dl⟩ hfg hbg []
  rw [List.append_nil] at hrun
  rw [hrun]
  simp only at hdim
  interval_cases dl <;> rfl

lemma paramChars_ne_nil (ns : List Nat) (h : ns ≠ []) : paramChars ns ≠ [] := by
  cases ns with
  | nil => exact absurd rfl h
  | cons n ms =>
    cases ms with
    | nil => exact natStr_ne_nil n
    | cons m ms2 =>
      rw [paramChars_cons n (by simp)]
      intro he
      simp at he

lemma paramChars_inj (ns ms : List Nat) (h : paramChars ns = paramChars ms) :
    ns = ms := by
  cases ns with
  | nil =>
    cases ms with
    | nil => rfl
    | cons m ms2 =>
      exact absurd h.symm (paramChars_ne_nil (m :: ms2) (by simp))
  | cons n ns2 =>
    cases ms with
    | nil => exact absurd h (paramChars_ne_nil (n :: ns2) (by simp))
    | cons m ms2 =>
      have h1 := parseNumList_correct (n :: ns2) [] (by simp)
      have h2 := parseNumList_correct (m :: ms2) [] (by simp)
      rw [h] at h1
      have h3 := h1.symm.trans h2
      simp only [Option.some.injEq, Prod.mk.injEq, and_true] at h3
      exact h3

lemma charCodes_eq_map (st : CharStyle) :
    charCodes st = (codeSegs st).map paramChars := by
  obtain ⟨f, b, bo, it, un, sk, dl⟩ := st
  unfold charCodes codeSegs
  by_cases h1 : bg_ansi_code b = ("49").data <;>
  cases bo <;> cases it <;> cases un <;> cases sk <;>
  by_cases h2 : 1 ≤ dl ∧ dl ≤ 3 <;>
  simp only [h1, h2, ite_true, ite_false, if_true, if_false] <;>
  simp [bold_ansi_code, italic_ansi_code, underline_ansi_code,
    strikethrough_ansi_code, dim_ansi_code, h2, fg_str, bg_str,
    paramChars] <;>
  decide

lemma mem_ite_singleton {P : Prop} [Decidable P] {x : List Nat}
    {s : List Nat} (h : s ∈ (if P then [x] else ([] : List (List Nat)))) :
    s = x := by
  split at h
  · simpa using h
  · cases h

lemma codeSegs_mem (st : CharStyle) (s : List Nat) (hs : s ∈ codeSegs st) :
    s = fgNats st.fg ∨ s = bgNats st.bg ∨ s = [1] ∨ s = [3] ∨ s = [4] ∨
      s = [9] ∨ s = [2] := by
  unfold codeSegs at hs
  rcases List.mem_append.mp hs with h | h
  · rcases List.mem_append.mp h with h | h
    · rcases List.mem_append.mp h with h | h
      · rcases List.mem_append.mp h with h | h
        · rcases List.mem_append.mp h with h | h
          · rcases List.mem_append.mp h with h | h
            · left; simpa using h
            · right; left
              split at h
              · cases h
              · simpa using h
          · right; right; left; exact mem_ite_singleton h
        · right; right; right; left; exact mem_ite_singleton h
      · right; right; right; right; left; exact mem_ite_singleton h
    · right; right; right; right; right; left; exact mem_ite_singleton h
  · right; right; right; right; right; right; exact mem_ite_singleton h

lemma codeSegs_ne_nil_mem (st : CharStyle) : ∀ s ∈ codeSegs st, s ≠ [] := by
  intro s hs
  rcases codeSegs_mem st s hs with h | h | h | h | h | h | h <;> rw [h]
  · exact fgNats_ne_nil _
  · exact bgNats_ne_nil _
  all_goals simp

lemma codeSegs_nonempty (st : CharStyle) : codeSegs st ≠ [] := by
  unfold codeSegs
  simp

lemma codeNats_ne_nil (st : CharStyle) : codeNats st ≠ [] := by
  rw [codeNats_join]
  intro h
  simp only [List.append_eq_nil] at h
  exact fgNats_ne_nil st.fg h.1

lemma fgNats_bound (c : Color) (h : colorWFb c = true) (n : Nat)
    (hn : n ∈ fgNats c) : n < 4294967296 := by
  cases c <;> simp_all [fgNats, colorWFb] <;> omega

lemma bgNats_bound (c : Color) (h : colorWFb c = true) (n : Nat)
    (hn : n ∈ bgNats c) : n < 4294967296 := by
  cases c <;> simp_all [bgNats, colorWFb] <;> omega

lemma codeNats_bound (st : CharStyle) (hfg : colorWFb st.fg = true)
    (hbg : colorWFb st.bg = true) :
    ∀ n ∈ 0 :: codeNats st, n < 4294967296 := by
  intro n hn
  rcases List.mem_cons.mp hn with h0 | hn2
  · omega
  · unfold codeNats at hn2
    obtain ⟨l, hl, hnl⟩ := List.mem_join.mp hn2
    rcases codeSegs_mem st l hl with h | h | h | h | h | h | h <;> subst h
    · exact fgNats_bound _ hfg n hnl
    · exact bgNats_bound _ hbg n hnl
    all_goals (simp only [List.mem_singleton] at hnl; omega)

lemma u32filter_eq (ns : List Nat) (h : ∀ n ∈ ns, n < 4294967296) :
    u32filter ns = ns := by
  unfold u32filter
  rw [List.filter_eq_self]
  intro a ha
  simpa using h a ha

lemma escSeq_paramChars (st : CharStyle) :
    escSeq (charCodes st) =
      '\\' :: '0' :: '3' :: '3' :: '[' ::
        (paramChars (0 :: codeNats st) ++ 'm' :: []) := by
  rw [escSeq, charCodes_eq_map]
  rw [intercalate_map_paramChars (codeSegs st) (codeSegs_ne_nil_mem st)
    (codeSegs_nonempty st)]
  rw [paramChars_cons 0 (codeNats_ne_nil st)]
  rw [show (codeSegs st).join = codeNats st from rfl]
  rw [show natStr 0 = ['0'] from rfl]
  simp

lemma tokStep_escSeq (st : CharStyle) (hfg : colorWFb st.fg = true)
    (hbg : colorWFb st.bg = true) (r : List Char) :
    tokStep (escSeq (charCodes st) ++ r) =
      Except.ok (some (Tok.sgr (0 :: codeNats st), r)) := by
  rw [escSeq_paramChars]
  simp only [List.cons_append, List.append_assoc, List.nil_append]
  simp only [tokStep]
  rw [if_pos trivial]
  rw [parseSgrBody_params (0 :: codeNats st) r (by simp)]
  rw [if_neg (show ('\\' : Char) = '\x1b' → False by decide)]
  dsimp only
  rw [u32filter_eq _ (codeNats_bound st hfg hbg)]

/-- The characters whose shell escaping re-parses as two characters: the
amended round-trip claim excludes exactly these. -/
def GoodChar (c : Char) : Prop :=
  c ≠ '"' ∧ c ≠ '\\' ∧ c ≠ '$' ∧ c ≠ Char.ofNat 96 ∧ c ≠ '!'

lemma tokStep_escapedChar (c : Char) (r : List Char)
    (hesc : c ≠ '\x1b') (hg : GoodChar c) :
    tokStep (escapedChar c ++ r) = Except.ok (some (Tok.chr c, r)) := by
  obtain ⟨hq, hbs, hd, hbt, hex⟩ := hg
  by_cases hn : c = '\n'
  · subst hn
    rw [show escapedChar '\n' = ['\\', 'n'] from rfl]
    rfl
  · have he : escapedChar c = [c] := by
      unfold escapedChar
      rw [if_neg hn, if_neg hq, if_neg hbs, if_neg hd, if_neg hbt, if_neg hex]
    rw [he, show [c] ++ r = c :: r from rfl]
    simp only [tokStep]
    rw [if_neg hesc, if_neg hbs]

lemma charCodes_inj (st1 st2 : CharStyle) (h1 : StyleWF st1) (h2 : StyleWF st2)
    (h : charCodes st1 = charCodes st2) : st1 = st2 := by
  have i1 := intercalate_map_paramChars (codeSegs st1) (codeSegs_ne_nil_mem st1)
    (codeSegs_nonempty st1)
  have i2 := intercalate_map_paramChars (codeSegs st2) (codeSegs_ne_nil_mem st2)
    (codeSegs_nonempty st2)
  rw [charCodes_eq_map, charCodes_eq_map] at h
  have e1 : paramChars (codeNats st1) = paramChars (codeNats st2) := by
    rw [show codeNats st1 = (codeSegs st1).join from rfl,
        show codeNats st2 = (codeSegs st2).join from rfl, ← i1, ← i2, h]
  have e2 : codeNats st1 = codeNats st2 := paramChars_inj _ _ e1
  calc st1 = (sgrRun ParseState.deflt (0 :: codeNats st1)).to_char_style :=
        (codes_decode st1 h1).symm
    _ = (sgrRun ParseState.deflt (0 :: codeNats st2)).to_char_style := by
        rw [e2]
    _ = st2 := codes_decode st2 h2

lemma genBody_reparse : ∀ (cs : List StyledChar) (cur : List (List Char))
    (s : ParseState),
    (cur = [] ∨ ∃ stp, StyleWF stp ∧ cur = charCodes stp ∧
      s.to_char_style = stp) →
    (∀ c ∈ cs, GoodChar c.ch ∧ c.ch ≠ '\x1b' ∧ StyleWF c.style) →
    (tokenize (genBody cs cur ++ ("\\033[0m").data)).map (runToks s) =
      Except.ok cs := by
  intro cs
  induction cs with
  | nil =>
    intro cur s _ _
    rw [show genBody [] cur = [] from rfl, List.nil_append]
    rw [show tokenize (("\\033[0m").data) = Except.ok [Tok.sgr [0]] from rfl]
    rfl
  | cons c cs ih =>
    intro cur s hinv hgood
    obtain ⟨hgc, hesc, hWF⟩ := hgood c (List.mem_cons_self c cs)
    have hgood2 : ∀ x ∈ cs, GoodChar x.ch ∧ x.ch ≠ '\x1b' ∧ StyleWF x.style :=
      fun x hx => hgood x (List.mem_cons_of_mem c hx)
    by_cases hc : charCodes c.style = cur
    · rcases hinv with hcur | ⟨stp, hstpWF, hcur, hsty⟩
      · exact absurd (hc.trans hcur) (charCodes_ne_nil c.style)
      · have heq : stp = c.style :=
          charCodes_inj stp c.style hstpWF hWF (hcur.symm.trans hc.symm)
        rw [show genBody (c :: cs) cur = escapedChar c.ch ++ genBody cs cur
          from by rw [genBody]; rw [if_neg (by simp [hc])]]
        rw [List.append_assoc]
        rw [tokenize_step (tokStep_escapedChar c.ch _ hesc hgc)]
        have hih := ih cur s (Or.inr ⟨stp, hstpWF, hcur, hsty⟩) hgood2
        cases hts : tokenize (genBody cs cur ++ ("\\033[0m").data) with
        | error e =>
          rw [hts] at hih
          simp only [Except.map] at hih
          cases hih
        | ok ts2 =>
          rw [hts] at hih
          simp only [Except.map, Except.ok.injEq] at hih ⊢
          rw [show runToks s (Tok.chr c.ch :: ts2) =
            StyledChar.with_style c.ch s.to_char_style :: runToks s ts2
            from rfl]
          rw [hih, hsty, heq]
          rw [show StyledChar.with_style c.ch c.style = c from rfl]
    · have hdec : (processParams s (0 :: codeNats c.style)).to_char_style =
          c.style := by
        rw [processParams_eq_sgrRun]
        rw [show sgrRun s (0 :: codeNats c.style) =
          sgrRun ParseState.deflt (codeNats c.style) from rfl]
        have hcd := codes_decode c.style hWF
        rw [show sgrRun ParseState.deflt (0 :: codeNats c.style) =
          sgrRun ParseState.deflt (codeNats c.style) from rfl] at hcd
        exact hcd
      rw [show genBody (c :: cs) cur = escSeq (charCodes c.style) ++
        (escapedChar c.ch ++ genBody cs (charCodes c.style))
        from by rw [genBody]; rw [if_pos (by simp [hc])]; simp]
      simp only [List.append_assoc]
      rw [tokenize_step (tokStep_escSeq c.style hWF.1 hWF.2.1 _)]
      rw [tokenize_step (tokStep_escapedChar c.ch _ hesc hgc)]
      have hih := ih (charCodes c.style) (processParams s (0 :: codeNats c.style))
        (Or.inr ⟨c.style, hWF, rfl, hdec⟩) hgood2
      cases hts : tokenize (genBody cs (charCodes c.style) ++ ("\\033[0m").data) with
      | error e =>
        rw [hts] at hih
        simp only [Except.map] at hih
        cases hih
      | ok ts2 =>
        rw [hts] at hih
        simp only [Except.map, Except.ok.injEq] at hih ⊢
        rw [show runToks s (Tok.sgr (0 :: codeNats c.style) :: Tok.chr c.ch :: ts2) =
          runToks (processParams s (0 :: codeNats c.style))
            (Tok.chr c.ch :: ts2) from rfl]
        rw [show runToks (processParams s (0 :: codeNats c.style))
            (Tok.chr c.ch :: ts2) =
          StyledChar.with_style c.ch
              (processParams s (0 :: codeNats c.style)).to_char_style ::
            runToks (processParams s (0 :: codeNats c.style)) ts2 from rfl]
        rw [hdec, hih]
        rw [show StyledChar.with_style c.ch c.style = c from rfl]

/-- `str::trim` of the source (leading and trailing whitespace removed;
delimiters compared here are all ASCII, so character positions coincide
with the source's byte positions). -/

lemma lastIndexOf_append_last (l : List Char) (q : Char) :
    lastIndexOf (l ++ [q]) q = some l.length := by
  induction l with
  | nil => simp [lastIndexOf]
  | cons c cs ih => simp [lastIndexOf, ih]

lemma trimChars_eq (c d : Char) (hc : c.isWhitespace = false)
    (hd : d.isWhitespace = false) (mid : List Char) :
    trimChars (c :: (mid ++ [d])) = c :: (mid ++ [d]) := by
  unfold trimChars
  rw [List.dropWhile_cons_of_neg (by simp [hc])]
  rw [show (c :: (mid ++ [d])).reverse = d :: (mid.reverse ++ [c]) by simp]
  rw [List.dropWhile_cons_of_neg (by simp [hd])]
  simp

lemma strip_generated (body : List Char) :
    (strip_echo_wrapper (String.mk
      (("echo -e \"").data ++ body ++ ("\\033[0m\"").data))).data =
      body ++ ("\\033[0m").data := by
  have htrim : trimChars
      (("echo -e \"").data ++ body ++ ("\\033[0m\"").data) =
      ("echo -e \"").data ++ body ++ ("\\033[0m\"").data := by
    have hsh : ("echo -e \"").data ++ body ++ ("\\033[0m\"").data =
        'e' :: ((("cho -e \"").data ++ body ++ ("\\033[0m").data) ++ ['"']) := by
      simp
    rw [hsh, trimChars_eq 'e' '"' (by decide) (by decide)]
  have hsplit : ("echo -e \"").data ++ body ++ ("\\033[0m\"").data =
      (("echo -e ").data ++ ['"']) ++ (body ++ ("\\033[0m\"").data) := by
    simp
  have hpre : tryPrefix
      (("echo -e \"").data ++ body ++ ("\\033[0m\"").data)
      (("echo -e ").data ++ ['"']) '"' =
      some (body ++ ("\\033[0m").data) := by
    unfold tryPrefix
    rw [if_pos ?_]
    · rw [hsplit]
      rw [show ((("echo -e ").data ++ ['"']) ++
        (body ++ ("\\033[0m\"").data)).drop
          (("echo -e ").data ++ ['"']).length = body ++ ("\\033[0m\"").data
        from List.drop_left _ _]
      rw [show body ++ ("\\033[0m\"").data =
        (body ++ ("\\033[0m").data) ++ ['"'] by simp]
      rw [lastIndexOf_append_last]
      dsimp only
      rw [List.take_left]
    · rw [hsplit]
      rw [List.isPrefixOf_iff_prefix]
      exact List.prefix_append _ _
  unfold strip_echo_wrapper
  rw [show (String.mk (("echo -e \"").data ++ body ++
    ("\\033[0m\"").data)).data =
    ("echo -e \"").data ++ body ++ ("\\033[0m\"").data from rfl]
  rw [htrim]
  simp only [wrapperPrefixes, List.map_cons, List.map_nil]
  rw [hpre]
  rfl

lemma generate_eq (text : List StyledChar) (h : text ≠ []) :
    generate_echo_command text = String.mk
      (("echo -e \"").data ++ genBody text [] ++ ("\\033[0m\"").data) := by
  unfold generate_echo_command
  rw [if_neg (by simpa using h)]

/-- Counterexample to C4 as stated: the one-character input `$` parses to
one character, but its re-encoding escapes the dollar sign as `\$`, which
the ANSI parser does not recognize as an escape — the re-parse yields two
characters (a backslash and the dollar sign), so the round trip does not
preserve the character count. -/
theorem c4_counterexample :
    parse_ansi ("$") =
      Except.ok [StyledChar.with_style '$' CharStyle.default] ∧
    parse_ansi (strip_echo_wrapper (generate_echo_command
      [StyledChar.with_style '$' CharStyle.default])) =
      Except.ok [StyledChar.with_style '\\' CharStyle.default,
                 StyledChar.with_style '$' CharStyle.default] ∧
    [StyledChar.with_style '\\' CharStyle.default,
     StyledChar.with_style '$' CharStyle.default].length ≠
      ([StyledChar.with_style '$' CharStyle.default]).length := by
  refine ⟨rfl, rfl, by decide⟩

/-- C4 (amended): for every ANSI input whose parse succeeds with no
parsed character among the five shell-escaped specials (double quote,
backslash, dollar, backtick, exclamation mark), re-encoding the parse
result with `generate_echo_command`, stripping the wrapper, and parsing
again returns exactly the original parsed sequence — the same characters
with the same per-character style, hence in particular the same length. -/
theorem c4_semantic_roundtrip (input : String) (out : List StyledChar)
    (hp : parse_ansi input = Except.ok out)
    (hch : ∀ c ∈ out, GoodChar c.ch) :
    parse_ansi (strip_echo_wrapper (generate_echo_command out)) =
      Except.ok out := by
  have himg := parse_ansi_image input out hp
  cases hout : out with
  | nil => rfl
  | cons c0 cs0 =>
    rw [← hout]
    have hne : out ≠ [] := by rw [hout]; simp
    rw [generate_eq out hne]
    unfold parse_ansi
    rw [strip_generated (genBody out [])]
    exact genBody_reparse out [] ParseState.deflt (Or.inl rfl)
      (fun c hcm => ⟨hch c hcm, (himg c hcm).2, (himg c hcm).1⟩)

/-- Witness for C4 at the input `ESC[31mHi`: two red characters whose
re-encoding strips and re-parses to exactly the same two styled
characters. -/
theorem c4_semantic_roundtrip_witness :
    parse_ansi (strip_echo_wrapper (generate_echo_command
      [StyledChar.with_style 'H' { CharStyle.default with fg := Color.Red },
       StyledChar.with_style 'i' { CharStyle.default with fg := Color.Red }])) =
      Except.ok
        [StyledChar.with_style 'H' { CharStyle.default with fg := Color.Red },
         StyledChar.with_style 'i' { CharStyle.default with fg := Color.Red }] :=
  c4_semantic_roundtrip ("\x1b[31mHi") _ (by rfl)
    (by intro c hc; fin_cases hc <;>
      exact ⟨by decide, by decide, by decide, by decide, by decide⟩)
